import Mathlib

/-!
Verification of the data-collection coordinator of vm-orchestrate-datasets.

The repository contains two coordinator variants:
 * src/server/ubuntu_daita/server.py  (module-level handlers, two done dicts)
 * src/server/ubuntu_desktop/server.py (class DataCollectionServer, nested dict)

This file shallowly embeds the state and the handlers of both variants.
Python dicts are embedded as association lists (first-match lookup, in-place
first-match update, append on fresh key), Python lists as Lean lists, and the
on-disk artifact tree as finite maps from cell keys to lists of file entries.
Byte strings are abstracted to their lengths (the handlers only observe sizes);
sample files with an integer stem N and extension e are embedded as pairs
(N, e), which is the shape of every file the coordinator itself writes.
-/

/-- First-match lookup in an association list: `d[k]`, `none` = KeyError. -/
def alookup {κ α : Type} [DecidableEq κ] : List (κ × α) → κ → Option α
  | [], _ => none
  | (k', v) :: rest, k => if k' = k then some v else alookup rest k

/-- First-match update in an association list: `d[k] = v` (append if fresh). -/
def aset {κ α : Type} [DecidableEq κ] : List (κ × α) → κ → α → List (κ × α)
  | [], k, v => [(k, v)]
  | (k', v') :: rest, k, v =>
    if k' = k then (k, v) :: rest else (k', v') :: aset rest k v

/-- Remove the first occurrence of an element: Python `list.remove` guarded by
a membership test (no-op when the element is absent). -/
def removeFirst {α : Type} [DecidableEq α] : List α → α → List α
  | [], _ => []
  | x :: rest, a => if x = a then rest else x :: removeFirst rest a

/-- Last element of a list, or the default when empty. -/
def lastD {α : Type} (l : List α) (d : α) : α :=
  l.foldl (fun _ x => x) d

theorem alookup_aset_self {κ α : Type} [DecidableEq κ] (m : List (κ × α)) (k : κ) (v : α) :
    alookup (aset m k v) k = some v := by
  induction m with
  | nil => simp [aset, alookup]
  | cons p rest ih =>
    obtain ⟨k', v'⟩ := p
    by_cases h : k' = k
    · simp [aset, h, alookup]
    · simp [aset, h, alookup, ih]

theorem alookup_aset_ne {κ α : Type} [DecidableEq κ] (m : List (κ × α)) (k k' : κ) (v : α)
    (h : k' ≠ k) : alookup (aset m k v) k' = alookup m k' := by
  have hk : ¬ k = k' := fun he => h he.symm
  induction m with
  | nil => simp [aset, alookup, hk]
  | cons p rest ih =>
    obtain ⟨k₀, v₀⟩ := p
    by_cases h₀ : k₀ = k
    · subst h₀
      simp [aset, alookup, hk]
    · simp only [aset, if_neg h₀, alookup]
      by_cases h₁ : k₀ = k'
      · simp [h₁]
      · simp [h₁, ih]

theorem alookup_mem {κ α : Type} [DecidableEq κ] {m : List (κ × α)} {k : κ} {v : α}
    (h : alookup m k = some v) : (k, v) ∈ m := by
  induction m with
  | nil => simp [alookup] at h
  | cons p rest ih =>
    obtain ⟨k₀, v₀⟩ := p
    by_cases h₀ : k₀ = k
    · subst h₀
      simp [alookup] at h
      simp [h]
    · simp only [alookup, if_neg h₀] at h
      exact List.mem_cons_of_mem _ (ih h)

theorem mem_alookup {κ α : Type} [DecidableEq κ] {m : List (κ × α)} {k : κ} {v : α}
    (hnd : (m.map Prod.fst).Nodup) (h : (k, v) ∈ m) : alookup m k = some v := by
  induction m with
  | nil => simp at h
  | cons p rest ih =>
    obtain ⟨k₀, v₀⟩ := p
    simp only [List.map_cons, List.nodup_cons] at hnd
    rcases List.mem_cons.mp h with h₁ | h₁
    · have hk : k = k₀ := congrArg Prod.fst h₁
      have hv : v = v₀ := congrArg Prod.snd h₁
      simp [alookup, hk, hv]
    · have hk₀ : k₀ ≠ k := by
        intro he
        subst he
        exact hnd.1 (List.mem_map_of_mem Prod.fst h₁)
      simp [alookup, hk₀, ih hnd.2 h₁]

theorem mem_aset_iff {κ α : Type} [DecidableEq κ] {m : List (κ × α)} {k : κ} {v : α}
    (hnd : (m.map Prod.fst).Nodup) (k' : κ) (v' : α) :
    (k', v') ∈ aset m k v ↔ (k' = k ∧ v' = v) ∨ (k' ≠ k ∧ (k', v') ∈ m) := by
  induction m with
  | nil =>
    constructor
    · intro h
      simp [aset] at h
      exact Or.inl h
    · intro h
      rcases h with ⟨h₁, h₂⟩ | ⟨_, h₂⟩
      · simp [aset, h₁, h₂]
      · simp at h₂
  | cons p rest ih =>
    obtain ⟨k₀, v₀⟩ := p
    simp only [List.map_cons, List.nodup_cons] at hnd
    by_cases h₀ : k₀ = k
    · subst h₀
      simp only [aset, if_pos rfl]
      constructor
      · intro h
        rcases List.mem_cons.mp h with h₁ | h₁
        · exact Or.inl ⟨congrArg Prod.fst h₁, congrArg Prod.snd h₁⟩
        · right
          refine ⟨?_, List.mem_cons_of_mem _ h₁⟩
          intro he
          subst he
          exact hnd.1 (List.mem_map_of_mem Prod.fst h₁)
      · intro h
        rcases h with ⟨h₁, h₂⟩ | ⟨h₁, h₂⟩
        · simp [h₁, h₂]
        · rcases List.mem_cons.mp h₂ with h₃ | h₃
          · exact absurd (congrArg Prod.fst h₃) h₁
          · exact List.mem_cons_of_mem _ h₃
    · simp only [aset, if_neg h₀]
      constructor
      · intro h
        rcases List.mem_cons.mp h with h₁ | h₁
        · have hk : k' = k₀ := congrArg Prod.fst h₁
          right
          constructor
          · intro he
            exact h₀ (hk ▸ he)
          · simp [h₁]
        · rcases (ih hnd.2).mp h₁ with h₂ | h₂
          · exact Or.inl h₂
          · exact Or.inr ⟨h₂.1, List.mem_cons_of_mem _ h₂.2⟩
      · intro h
        rcases h with ⟨h₁, h₂⟩ | ⟨h₁, h₂⟩
        · exact List.mem_cons_of_mem _ ((ih hnd.2).mpr (Or.inl ⟨h₁, h₂⟩))
        · rcases List.mem_cons.mp h₂ with h₃ | h₃
          · exact List.mem_cons.mpr (Or.inl h₃)
          · exact List.mem_cons_of_mem _ ((ih hnd.2).mpr (Or.inr ⟨h₁, h₃⟩))

theorem removeFirst_sublist {α : Type} [DecidableEq α] (l : List α) (a : α) :
    (removeFirst l a).Sublist l := by
  induction l with
  | nil => simp [removeFirst]
  | cons x rest ih =>
    by_cases h : x = a
    · simp only [removeFirst, if_pos h]
      exact List.sublist_cons_self x rest
    · simpa [removeFirst, h] using List.Sublist.cons₂ x ih

theorem nodup_removeFirst {α : Type} [DecidableEq α] {l : List α} (a : α)
    (h : l.Nodup) : (removeFirst l a).Nodup :=
  h.sublist (removeFirst_sublist l a)

theorem mem_removeFirst_of_ne {α : Type} [DecidableEq α] {l : List α} {x a : α}
    (hx : x ∈ l) (hne : x ≠ a) : x ∈ removeFirst l a := by
  induction l with
  | nil => simp at hx
  | cons y rest ih =>
    by_cases h : y = a
    · subst h
      rcases List.mem_cons.mp hx with h₁ | h₁
      · exact absurd h₁ hne
      · simpa [removeFirst] using h₁
    · rcases List.mem_cons.mp hx with h₁ | h₁
      · simp [removeFirst, h, h₁]
      · simp [removeFirst, h, ih h₁]

theorem not_mem_removeFirst_self {α : Type} [DecidableEq α] {l : List α} (a : α)
    (h : l.Nodup) : a ∉ removeFirst l a := by
  induction l with
  | nil => simp [removeFirst]
  | cons y rest ih =>
    simp only [List.nodup_cons] at h
    by_cases hy : y = a
    · subst hy
      simpa [removeFirst] using h.1
    · simp only [removeFirst, if_neg hy, List.mem_cons]
      rintro (h₁ | h₁)
      · exact hy h₁.symm
      · exact ih h.2 h₁

theorem mem_of_mem_removeFirst {α : Type} [DecidableEq α] {l : List α} {x a : α}
    (hx : x ∈ removeFirst l a) : x ∈ l :=
  (removeFirst_sublist l a).mem hx

theorem lastD_cons {α : Type} (x : α) (l : List α) (d : α) :
    lastD (x :: l) d = lastD l x := rfl

theorem lastD_append {α : Type} (l₁ l₂ : List α) (d : α) :
    lastD (l₁ ++ l₂) d = lastD l₂ (lastD l₁ d) := by
  simp [lastD, List.foldl_append]

/-! ## Data model shared by both variants -/

/-- One entry of `pending_visits`: the dict `{"url": url, "vpn": vpn, "daita": daita}`. -/
structure Visit where
  url : String
  vpn : String
  daita : String
deriving DecidableEq

/-- A file in a cell directory with integer stem `N` and an extension
(the coordinator writes exactly `(N, ".png")`, `(N, ".pcap")`, `(N, ".json")`). -/
abbrev SFile := Nat × String

/-- Key of a cell directory `datadir/<vpn>/<site>_<daita>`. -/
abbrev CellKey := String × Nat × String

/-- A POST /work submission after field-presence and hex-decoding checks
(the handlers only observe the byte lengths of the decoded payloads). -/
structure PostReq where
  id : String
  url : String
  vpn : String
  daita : String
  pngLen : Nat
  pcapLen : Nat
deriving DecidableEq

/-- Outcome of a POST /work handler.  `keyErr` is an uncaught KeyError
(the framework turns it into a 500-class response), `ioErr` a failed
file write (uncaught OSError in the daita variant, the caught
"Failed to save the data" 500 in the desktop variant). -/
inductive PostRes where
  | rejectPcap
  | rejectPng
  | alreadyDone
  | keyErr
  | ioErr
  | saved (n : Nat)
deriving DecidableEq

/-- HTTP status of a POST /work outcome as produced by Flask. -/
def statusOf : PostRes → Nat
  | .rejectPcap => 200
  | .rejectPng => 200
  | .alreadyDone => 200
  | .keyErr => 500
  | .ioErr => 500
  | .saved _ => 200

/-! ## Sample-number allocation (C9)

`get_free_sample` (ubuntu_daita/server.py:182-189): a while loop returning the
first `sample` such that `datadir/vpn/{site}_{daita}/{sample}.png` does not
exist.  The loop is embedded with a fuel bound of one more than the directory
size, which the pigeonhole argument below shows is never exhausted. -/

def get_free_sample_aux (dir : List SFile) : Nat → Nat → Nat
  | 0, s => s
  | fuel + 1, s => if (s, ".png") ∈ dir then get_free_sample_aux dir fuel (s + 1) else s

def get_free_sample (dir : List SFile) : Nat :=
  get_free_sample_aux dir (dir.length + 1) 0

/-- Embeds `_get_free_sample_num` (ubuntu_desktop/server.py:587-604):
`max(existing) + 1 if existing else 0` over the integer stems of all files
in the cell directory. -/
def get_free_sample_num (dir : List SFile) : Nat :=
  match dir.map Prod.fst with
  | [] => 0
  | x :: xs => xs.foldl max x + 1

/-! ## ubuntu_daita variant: state and handlers -/

/-- Dicts `done_dict_on` / `done_dict_off`: vpn → url → completed count. -/
abbrev DoneA := List (String × List (String × Nat))

/-- Shared state of ubuntu_daita/server.py relevant to the claims
(`done_dict_on`, `done_dict_off`, `pending_visits`, `url2line`, the data
directory, and the process-wide constant `samples`). -/
structure DaitaSt where
  don : DoneA
  doff : DoneA
  pending : List Visit
  url2line : List (String × Nat)
  fs : List (CellKey × List SFile)
  samples : Nat
deriving DecidableEq

/-- Embeds `setup_visit_list` (ubuntu_daita/server.py:338-348) restricted to one done
dict: all `(url, vpn, daita)` with `count < samples`, in dict iteration order. -/
def openVisits (dd : DoneA) (daita : String) (samples : Nat) : List Visit :=
  dd.flatMap fun p => p.2.filterMap fun q =>
    if q.2 < samples then some ⟨q.1, p.1, daita⟩ else none

/-- Embeds `setup_visit_list`: `all_done_dicts = [("on", done_dict_on), ("off", done_dict_off)]`. -/
def setup_visit_list (don doff : DoneA) (samples : Nat) : List Visit :=
  openVisits don "on" samples ++ openVisits doff "off" samples

/-- Embeds `post_work` (ubuntu_daita/server.py:118-180) after field-presence and hex
checks.  `pcap_kib < 30 or pcap_kib > 1500` over exact float division by 1024
is equivalent to the integer bounds used here.  The counter dict is selected by
`daita == 'on'`; the write path uses the request's `daita` string verbatim.
A write into a cell directory that does not exist raises an uncaught
FileNotFoundError before any increment (`ioErr`). -/
def daita_post_work (st : DaitaSt) (r : PostReq) : PostRes × DaitaSt :=
  if r.pcapLen < 30 * 1024 ∨ r.pcapLen > 1500 * 1024 then (.rejectPcap, st)
  else if r.pngLen < 30 * 1024 then (.rejectPng, st)
  else
    let dd := if r.daita = "on" then st.don else st.doff
    match alookup dd r.vpn with
    | none => (.keyErr, st)
    | some um =>
      match alookup um r.url with
      | none => (.keyErr, st)
      | some c =>
        if c ≥ st.samples then (.alreadyDone, st)
        else
          match alookup st.url2line r.url with
          | none => (.keyErr, st)
          | some site =>
            match alookup st.fs (r.vpn, site, r.daita) with
            | none => (.ioErr, st)
            | some dir =>
              let n := get_free_sample dir
              let fs' := aset st.fs (r.vpn, site, r.daita)
                (dir ++ [(n, ".png"), (n, ".pcap"), (n, ".json")])
              let dd' := aset dd r.vpn (aset um r.url (c + 1))
              let pending' :=
                if c + 1 ≥ st.samples then removeFirst st.pending ⟨r.url, r.vpn, r.daita⟩
                else st.pending
              if r.daita = "on" then
                (.saved n, { st with don := dd', pending := pending', fs := fs' })
              else
                (.saved n, { st with doff := dd', pending := pending', fs := fs' })

/-- Per-cell counter as `post_work` reads it: the dict chosen by
`daita == 'on'`, then `done_dict[vpn][url]`. -/
def daitaCount (st : DaitaSt) (v : Visit) : Option Nat :=
  match alookup (if v.daita = "on" then st.don else st.doff) v.vpn with
  | none => none
  | some um => alookup um v.url

/-- The cell is open: its counter exists and is `< samples`. -/
def daitaOpen (st : DaitaSt) (v : Visit) : Bool :=
  match daitaCount st v with
  | some c => c < st.samples
  | none => false

/-- Keys are pairwise distinct at both dict levels (true of Python dicts). -/
def DoneAWF (dd : DoneA) : Prop :=
  (dd.map Prod.fst).Nodup ∧ ∀ p ∈ dd, (p.2.map Prod.fst).Nodup

/-- Structural well-formedness of the daita-variant state: dict keys are
distinct and every scaffolded cell directory uses a mode in {on, off}
(`setup_datadir` creates exactly `<site>_on` and `<site>_off`). -/
def DaitaWF (st : DaitaSt) : Prop :=
  DoneAWF st.don ∧ DoneAWF st.doff ∧ ∀ e ∈ st.fs, e.1.2.2 = "on" ∨ e.1.2.2 = "off"

/-- I2 for the daita variant: pending entries are distinct, every pending
entry is an open matrix cell, and every open cell of either done dict is
pending. -/
def DaitaInv (st : DaitaSt) : Prop :=
  st.pending.Nodup ∧
  (∀ v ∈ st.pending, (v.daita = "on" ∨ v.daita = "off") ∧ daitaOpen st v = true) ∧
  (∀ p ∈ st.don, ∀ q ∈ p.2, q.2 < st.samples → (⟨q.1, p.1, "on"⟩ : Visit) ∈ st.pending) ∧
  (∀ p ∈ st.doff, ∀ q ∈ p.2, q.2 < st.samples → (⟨q.1, p.1, "off"⟩ : Visit) ∈ st.pending)

/-! ## ubuntu_desktop variant: state and handlers -/

/-- Dict `done_dict`: vpn → url → daita mode → completed count. -/
abbrev DoneD := List (String × List (String × List (String × Nat)))

/-- Shared state of ubuntu_desktop/server.py relevant to the claims:
`done_dict`, `pending_visits`, `url2line`, the data directory, the configured
daita mode set, and `samples`. -/
structure DeskSt where
  done : DoneD
  pending : List Visit
  url2line : List (String × Nat)
  fs : List (CellKey × List SFile)
  modes : List String
  samples : Nat
deriving DecidableEq

/-- Embeds `_init_visit_list` (ubuntu_desktop/server.py:308-320): every
`(url, vpn, mode)` with `done_dict[vpn][url][mode] < samples`, iterating
vpns, then urls, then `daita_modes`.  (The construction guarantees every
mode key is present; a missing key is read as 0.) -/
def init_visit_list (done : DoneD) (modes : List String) (samples : Nat) : List Visit :=
  done.flatMap fun p => p.2.flatMap fun q => modes.filterMap fun m =>
    if (alookup q.2 m).getD 0 < samples then some ⟨q.1, p.1, m⟩ else none

/-- Embeds `post_work` (ubuntu_desktop/server.py:487-585) after field-presence and
hex checks.  `current_count = done_dict[vpn][url].get(daita, 0)`; a failing
three-file write (missing cell directory) is the caught 500 branch with no
state change (`ioErr`). -/
def desktop_post_work (st : DeskSt) (r : PostReq) : PostRes × DeskSt :=
  if r.pcapLen < 10 * 1024 ∨ r.pcapLen > 3000 * 1024 then (.rejectPcap, st)
  else if r.pngLen < 10 * 1024 then (.rejectPng, st)
  else
    match alookup st.done r.vpn with
    | none => (.keyErr, st)
    | some um =>
      match alookup um r.url with
      | none => (.keyErr, st)
      | some mm =>
        let c := (alookup mm r.daita).getD 0
        if c ≥ st.samples then (.alreadyDone, st)
        else
          match alookup st.url2line r.url with
          | none => (.keyErr, st)
          | some site =>
            match alookup st.fs (r.vpn, site, r.daita) with
            | none => (.ioErr, st)
            | some dir =>
              let n := get_free_sample_num dir
              let fs' := aset st.fs (r.vpn, site, r.daita)
                (dir ++ [(n, ".png"), (n, ".pcap"), (n, ".json")])
              let done' := aset st.done r.vpn (aset um r.url (aset mm r.daita (c + 1)))
              let pending' :=
                if c + 1 ≥ st.samples then removeFirst st.pending ⟨r.url, r.vpn, r.daita⟩
                else st.pending
              (.saved n, { st with done := done', pending := pending', fs := fs' })

/-- Per-cell counter as `post_work` reads it:
`done_dict[vpn][url].get(daita, 0)`, `none` when vpn or url is unknown. -/
def deskCount (st : DeskSt) (v : Visit) : Option Nat :=
  match alookup st.done v.vpn with
  | none => none
  | some um =>
    match alookup um v.url with
    | none => none
    | some mm => some ((alookup mm v.daita).getD 0)

/-- The cell is open: vpn and url are known and the mode counter is `< samples`. -/
def deskOpen (st : DeskSt) (v : Visit) : Bool :=
  match deskCount st v with
  | some c => c < st.samples
  | none => false

/-- Keys are pairwise distinct at the vpn and url dict levels. -/
def DoneDWF (done : DoneD) : Prop :=
  (done.map Prod.fst).Nodup ∧ ∀ p ∈ done, (p.2.map Prod.fst).Nodup

/-- Structural well-formedness of the desktop state: dict keys distinct, the
configured mode list duplicate-free, and every scaffolded cell directory uses
a configured mode (`_init_data_directory` creates `<site>_<daita>` exactly for
`daita_modes`). -/
def DeskWF (st : DeskSt) : Prop :=
  DoneDWF st.done ∧ st.modes.Nodup ∧ ∀ e ∈ st.fs, e.1.2.2 ∈ st.modes

/-- I2 for the desktop variant: pending entries are distinct, every pending
entry is an open matrix cell carrying a configured mode, and every open cell
of the done dict is pending. -/
def DeskInv (st : DeskSt) : Prop :=
  st.pending.Nodup ∧
  (∀ v ∈ st.pending, v.daita ∈ st.modes ∧ deskOpen st v = true) ∧
  (∀ p ∈ st.done, ∀ q ∈ p.2, ∀ m ∈ st.modes,
    (alookup q.2 m).getD 0 < st.samples → (⟨q.1, p.1, m⟩ : Visit) ∈ st.pending)

/-! ## GET /server: rotation policy -/

/-- Set `available` of open (vpn, daita) pairs built from the pending list
(a Python set: duplicate-free, membership as in the list of pairs). -/
def availablePairs (pending : List Visit) : List (String × String) :=
  (pending.map fun v => (v.vpn, v.daita)).dedup

/-- Embeds `get_server` (ubuntu_daita/server.py:72-91), candidate list passed to
`random.choice`:
`[pair for pair in available if pair[0] != server] if len(available) > 1 else list(available)`.
The handler 400s when `available` is empty; `random.choice` on an empty
candidate list raises an uncaught IndexError. -/
def daita_server_candidates (pending : List Visit) (server : String) :
    List (String × String) :=
  let available := availablePairs pending
  if available.length > 1 then available.filter (fun p => p.1 != server) else available

/-- Embeds `get_vpn_server` (ubuntu_desktop/server.py:400-435), candidate list after
`if len(available) > 1 and current in available: available.remove(current)`;
the handler 400s when the remaining set is empty, else `random.choice`. -/
def desktop_server_candidates (pending : List Visit) (current : String × String) :
    List (String × String) :=
  let available := availablePairs pending
  if available.length > 1 ∧ current ∈ available then removeFirst available current
  else available

/-! ## GET /work -/

/-- Outcome of a GET /work handler: an error status, or the candidate list
handed to `random.choice` (HTTP 200). -/
inductive WorkRes where
  | err (status : Nat)
  | choice (cands : List Visit)
deriving DecidableEq

/-- Embeds `get_work` GET (ubuntu_daita/server.py:93-116).  Missing query arguments
default to `"*"`.  `server == 'None'` and an empty filtered list both return
status 400. -/
def daita_get_work (pending : List Visit) (id server daita : String) : WorkRes :=
  if id = "*" then .err 400
  else if server = "None" then .err 400
  else if server ≠ "*" ∧ daita ≠ "*" then
    let fv := pending.filter fun v => v.vpn == server && v.daita == daita
    if fv.isEmpty then .err 400 else .choice fv
  else .choice pending

/-- Embeds `get_work` (ubuntu_desktop/server.py:437-485).  Arguments are
`request.args.get(...)`: `none` when absent, and Python's falsiness also
rejects the empty string.  `server == "None"` → 409; no pending visit for the
(vpn, daita) pair → 409. -/
def desktop_get_work (pending : List Visit) (id server daita : Option String) : WorkRes :=
  match id, server, daita with
  | some i, some s, some d =>
    if i = "" ∨ s = "" ∨ d = "" then .err 400
    else if s = "None" then .err 409
    else
      let fv := (pending.filter fun v => v.vpn == s).filter fun v => v.daita == d
      if fv.isEmpty then .err 409 else .choice fv
  | _, _, _ => .err 400

/-! ## GET /setup: credential allocation -/

/-- Credential-pool state: `accounts` (the pool) and `allocated_accounts`. -/
structure PoolSt where
  accounts : List String
  allocated : List (String × String)
deriving DecidableEq

/-- Python `list.pop()`: removes and returns the last element. -/
def popLast {α : Type} : List α → Option (α × List α)
  | [] => none
  | [a] => some (a, [])
  | x :: rest =>
    match popLast rest with
    | some (a, r) => some (a, x :: r)
    | none => none

/-- Embeds `setup` (ubuntu_daita/server.py:34-53) and `setup_client`
(ubuntu_desktop/server.py:322-366) share this allocation logic verbatim:
return the already-allocated credential for `id` unchanged, else pop one off
the pool and record it; `none` when the pool is exhausted (HTTP 400). -/
def setup_client (st : PoolSt) (id : String) : Option String × PoolSt :=
  match alookup st.allocated id with
  | some acc => (some acc, st)
  | none =>
    match popLast st.accounts with
    | some (acc, rest) => (some acc, ⟨rest, aset st.allocated id acc⟩)
    | none => (none, st)

/-! ## Recovery at boot (C2)

File and directory names are kept as strings here; string primitives are
embedded structurally over the character list so that they evaluate inside
the kernel. -/

/-- Embeds `str.split("_")` on the character list (single-character separator). -/
def splitUnderscore : List Char → List (List Char)
  | [] => [[]]
  | c :: rest =>
    let r := splitUnderscore rest
    if c = '_' then [] :: r
    else
      match r with
      | h :: t => (c :: h) :: t
      | [] => [[c]]

/-- Embeds `int(s)` on a directory-name component: all decimal digits, non-empty
(signs and surrounding whitespace, accepted by Python's `int`, do not occur
in directory names the coordinator itself scaffolds). -/
def parseNat (cs : List Char) : Option Nat :=
  if cs ≠ [] ∧ cs.all (fun c => '0' ≤ c ∧ c ≤ '9') then
    some (cs.foldl (fun a c => a * 10 + (c.toNat - '0'.toNat)) 0)
  else none

/-- Embeds `name.endswith(suffix)`. -/
def strEndsWith (s suffix : String) : Bool :=
  suffix.toList.isSuffixOf s.toList

/-- Embeds `name.startswith(".")`. -/
def isHidden (s : String) : Bool :=
  match s.toList with
  | '.' :: _ => true
  | _ => false

/-- Embeds `len(list(subdir.glob("*.json")))`: entries whose name ends in `.json`. -/
def countJson (files : List String) : Nat :=
  (files.filter (fun f => strEndsWith f ".json")).length

/-- The number of `.pcap` files in a directory (the claim's witness count). -/
def countPcap (files : List String) : Nat :=
  (files.filter (fun f => strEndsWith f ".pcap")).length

/-- Embeds `[f for f in files if not f.startswith(".")]`. -/
def nonhidden (files : List String) : List String :=
  files.filter (fun f => !isHidden f)

/-- Embeds `s.replace(pat, rep)` (left-to-right, non-overlapping), with fuel equal to
the length of the subject string. -/
def replaceAllAux (pat rep : List Char) : Nat → List Char → List Char
  | 0, cs => cs
  | _ + 1, [] => []
  | fuel + 1, c :: rest =>
    if pat ≠ [] ∧ pat.isPrefixOf (c :: rest) then
      rep ++ replaceAllAux pat rep fuel ((c :: rest).drop pat.length)
    else c :: replaceAllAux pat rep fuel rest

def replaceStr (s pat rep : String) : String :=
  ⟨replaceAllAux pat.toList rep.toList s.toList.length s.toList⟩

/-- One directory-name parse of `_load_progress_from_current_data`
(ubuntu_desktop/server.py:269-291): split on `_` into exactly two parts,
require the mode to be configured, parse the site number, translate it back
to a url via `line2url`.  Any failure skips the directory. -/
def parseCell (line2url : List (Nat × String)) (modes : List String) (name : String) :
    Option (String × String) :=
  match splitUnderscore name.toList with
  | [siteCs, modeCs] =>
    let mode : String := ⟨modeCs⟩
    if mode ∈ modes then
      match parseNat siteCs with
      | some site =>
        match alookup line2url site with
        | some url => some (url, mode)
        | none => none
      | none => none
    else none
  | _ => none

/-- Processing of one subdirectory of one vpn directory: on a successful parse
and known vpn/url, `done_dict[vpn][url][mode] = len(list(subdir.glob("*.json")))`;
a KeyError on an unknown vpn is caught and the directory skipped. -/
def scan_sub (line2url : List (Nat × String)) (modes : List String) (dd : DoneD)
    (vpn : String) (name : String) (files : List String) : DoneD :=
  match parseCell line2url modes name with
  | none => dd
  | some (url, mode) =>
    match alookup dd vpn with
    | none => dd
    | some um =>
      match alookup um url with
      | none => dd
      | some mm => aset dd vpn (aset um url (aset mm mode (countJson files)))

/-- Embeds `_load_progress_from_current_data` (ubuntu_desktop/server.py:249-293):
iterate every vpn directory of the data dir, and every subdirectory of it. -/
def desktop_scan (line2url : List (Nat × String)) (modes : List String) (dd : DoneD)
    (tree : List (String × List (String × List String))) : DoneD :=
  tree.foldl
    (fun dd e => e.2.foldl (fun dd2 s => scan_sub line2url modes dd2 e.1 s.1 s.2) dd) dd

/-- The recovered counter of one cell, all three lookups strict. -/
def cellVal (dd : DoneD) (v : Visit) : Option Nat :=
  match alookup dd v.vpn with
  | none => none
  | some um =>
    match alookup um v.url with
    | none => none
    | some mm => alookup mm v.daita

/-- The file lists of the scanned subdirectories that assign to cell `v`, in
scan order. -/
def assigns (line2url : List (Nat × String)) (modes : List String)
    (tree : List (String × List (String × List String))) (v : Visit) :
    List (List String) :=
  tree.flatMap fun e =>
    if e.1 = v.vpn then
      e.2.filterMap fun s =>
        match parseCell line2url modes s.1 with
        | some (url, mode) => if url = v.url ∧ mode = v.daita then some s.2 else none
        | none => none
    else []

/-- Embeds `setup_datadir` (ubuntu_daita/server.py:247-311), recovery of one vpn
directory.  `dirsOn`/`dirsOff` are the file lists of the `<site>_on` /
`<site>_off` subdirectories in numeric order (the sorted `os.walk`).  Hidden
files are dropped; the total per mode must be a multiple of 3; every `.png`
must have a `.pcap` sibling; the counter of the i-th site is the i-th file
count divided by 3.  `none` embeds `sys.exit(1)`. -/
def daita_recover_vpn (dirsOn dirsOff : List (List String)) :
    Option (List Nat × List Nat) :=
  let filesOn := dirsOn.map nonhidden
  let filesOff := dirsOff.map nonhidden
  let doneOn := filesOn.map List.length
  let doneOff := filesOff.map List.length
  if (doneOn.foldr (· + ·) 0) % 3 ≠ 0 then none
  else if (doneOff.foldr (· + ·) 0) % 3 ≠ 0 then none
  else if !(filesOn.all fun fs =>
      (fs.filter fun f => strEndsWith f ".png").all fun png =>
        replaceStr png ".png" ".pcap" ∈ fs) then none
  else if !(filesOff.all fun fs =>
      (fs.filter fun f => strEndsWith f ".png").all fun png =>
        replaceStr png ".png" ".pcap" ∈ fs) then none
  else some (doneOn.map (· / 3), doneOff.map (· / 3))

/-! ## C8: setup stickiness -/

/-- C8: two successive GET /setup calls for the same worker identity return
the same credential; after a first successful call the second returns the
recorded credential with the state (in particular the pool) unchanged. -/
theorem setup_stickiness (st : PoolSt) (w c : String) (st₁ : PoolSt)
    (h : setup_client st w = (some c, st₁)) :
    setup_client st₁ w = (some c, st₁) := by
  unfold setup_client at h
  split at h
  next acc halloc =>
    injection h with h1 h2
    injection h1 with h1
    subst h1
    subst h2
    unfold setup_client
    rw [halloc]
  next halloc =>
    split at h
    next acc rest hpop =>
      injection h with h1 h2
      injection h1 with h1
      subst h1
      subst h2
      unfold setup_client
      rw [alookup_aset_self]
    next hpop =>
      injection h with h1 h2
      exact Option.noConfusion h1

theorem setup_stickiness_witness :
    setup_client ⟨["acct1"], []⟩ "w1" = (some "acct1", ⟨[], [("w1", "acct1")]⟩) ∧
    setup_client ⟨[], [("w1", "acct1")]⟩ "w1" = (some "acct1", ⟨[], [("w1", "acct1")]⟩) :=
  ⟨by decide,
   setup_stickiness ⟨["acct1"], []⟩ "w1" "acct1" ⟨[], [("w1", "acct1")]⟩ (by decide)⟩

/-! ## C3 / C4: rotation -/

/-- C3: when more than one (relay, mode) pair has open cells, the candidate
list handed to `random.choice` by either variant never contains the worker's
current pair, so any returned pair differs from it. -/
theorem rotation_no_pinning (pending : List Visit) (r m : String)
    (hlen : (availablePairs pending).length > 1) :
    (∀ p ∈ daita_server_candidates pending r, p ≠ (r, m)) ∧
    (∀ p ∈ desktop_server_candidates pending (r, m), p ≠ (r, m)) := by
  constructor
  · intro p hp
    unfold daita_server_candidates at hp
    rw [if_pos hlen] at hp
    have := List.of_mem_filter hp
    intro he
    subst he
    simp at this
  · intro p hp
    unfold desktop_server_candidates at hp
    by_cases hc : (r, m) ∈ availablePairs pending
    · rw [if_pos ⟨hlen, hc⟩] at hp
      intro he
      subst he
      exact not_mem_removeFirst_self (r, m) (List.nodup_dedup _) hp
    · rw [if_neg (fun hand => hc hand.2)] at hp
      intro he
      subst he
      exact hc hp

theorem rotation_no_pinning_witness :
    ((availablePairs [⟨"https://a.test", "r1", "off"⟩, ⟨"https://b.test", "r2", "off"⟩]).length > 1) ∧
    (∀ p ∈ daita_server_candidates [⟨"https://a.test", "r1", "off"⟩, ⟨"https://b.test", "r2", "off"⟩] "r1",
      p ≠ ("r1", "off")) ∧
    (∀ p ∈ desktop_server_candidates [⟨"https://a.test", "r1", "off"⟩, ⟨"https://b.test", "r2", "off"⟩] ("r1", "off"),
      p ≠ ("r1", "off")) :=
  ⟨by decide,
   (rotation_no_pinning _ "r1" "off" (by decide)).1,
   (rotation_no_pinning _ "r1" "off" (by decide)).2⟩

/-- C4: with open cells `(r1, on)` and `(r1, off)` only, and a worker whose
current relay is `r1`, the daita variant's `get_server` passes its
availability check (two open pairs) yet builds an empty candidate list — so
`random.choice` is invoked on an empty list and raises IndexError (HTTP 500)
instead of returning the still-open pairs. -/
theorem daita_rotation_crash :
    availablePairs [⟨"https://a.test", "r1", "on"⟩, ⟨"https://a.test", "r1", "off"⟩] ≠ [] ∧
    (availablePairs [⟨"https://a.test", "r1", "on"⟩, ⟨"https://a.test", "r1", "off"⟩]).length = 2 ∧
    daita_server_candidates [⟨"https://a.test", "r1", "on"⟩, ⟨"https://a.test", "r1", "off"⟩] "r1" = [] := by
  decide

/-! ## C5: GET /work error codes -/

/-- C5 counterexample: in the daita variant both "rotate" cases of GET /work
(`server=None`, and no open URL for the given pair) answer 400, not 409 —
the same code as the missing-argument error. -/
theorem get_work_status_cex :
    daita_get_work [] "w1" "None" "off" = .err 400 ∧
    daita_get_work [⟨"https://a.test", "r1", "off"⟩] "w1" "r2" "off" = .err 400 := by
  decide

/-- C5 amended: the desktop variant returns 409 for `server=None` and for an
exhausted pair, distinct from its 400 for missing arguments; the daita
variant returns 400 in both rotate cases, coinciding with its
missing-argument code. -/
theorem get_work_status_amended :
    (∀ (pending : List Visit) (i d : String), i ≠ "" → d ≠ "" →
      desktop_get_work pending (some i) (some "None") (some d) = .err 409) ∧
    (∀ (pending : List Visit) (i s d : String), i ≠ "" → s ≠ "" → d ≠ "" → s ≠ "None" →
      ((pending.filter fun v => v.vpn == s).filter fun v => v.daita == d).isEmpty = true →
      desktop_get_work pending (some i) (some s) (some d) = .err 409) ∧
    (∀ (pending : List Visit) (s d : Option String),
      desktop_get_work pending none s d = .err 400) ∧
    (∀ (pending : List Visit) (i d : String), i ≠ "*" →
      daita_get_work pending i "None" d = .err 400) ∧
    (∀ (pending : List Visit) (i s d : String), i ≠ "*" → s ≠ "None" → s ≠ "*" → d ≠ "*" →
      (pending.filter fun v => v.vpn == s && v.daita == d).isEmpty = true →
      daita_get_work pending i s d = .err 400) := by
  refine ⟨?_, ?_, ?_, ?_, ?_⟩
  · intro pending i d hi hd
    simp only [desktop_get_work]
    rw [if_neg (show ¬(i = "" ∨ ("None" : String) = "" ∨ d = "") from
          fun hor => hor.elim hi fun hor2 => hor2.elim (fun he => absurd he (by decide)) hd)]
    simp
  · intro pending i s d hi hs hd hn hfv
    simp only [desktop_get_work]
    rw [if_neg (show ¬(i = "" ∨ s = "" ∨ d = "") from
          fun hor => hor.elim hi fun hor2 => hor2.elim hs hd),
        if_neg hn, if_pos hfv]
  · intro pending s d
    cases s <;> cases d <;> simp [desktop_get_work]
  · intro pending i d hi
    simp only [daita_get_work]
    rw [if_neg hi]
    simp
  · intro pending i s d hi hn hs hd hfv
    simp only [daita_get_work]
    rw [if_neg hi, if_neg hn, if_pos ⟨hs, hd⟩, if_pos hfv]

theorem get_work_status_amended_witness :
    desktop_get_work [] (some "w1") (some "None") (some "off") = .err 409 ∧
    desktop_get_work [⟨"https://a.test", "r1", "off"⟩] (some "w1") (some "r2") (some "off") = .err 409 ∧
    desktop_get_work [] none (some "r1") (some "off") = .err 400 ∧
    daita_get_work [] "w1" "None" "off" = .err 400 ∧
    daita_get_work [⟨"https://a.test", "r1", "off"⟩] "w1" "r2" "off" = .err 400 :=
  ⟨get_work_status_amended.1 [] "w1" "off" (by decide) (by decide),
   get_work_status_amended.2.1 [⟨"https://a.test", "r1", "off"⟩] "w1" "r2" "off"
     (by decide) (by decide) (by decide) (by decide) (by decide),
   get_work_status_amended.2.2.1 [] (some "r1") (some "off"),
   get_work_status_amended.2.2.2.1 [] "w1" "off" (by decide),
   get_work_status_amended.2.2.2.2 [⟨"https://a.test", "r1", "off"⟩] "w1" "r2" "off"
     (by decide) (by decide) (by decide) (by decide) (by decide)⟩

/-! ## C6: size bounds -/

/-- C6 counterexample: a pcap of exactly 10 KiB — the claim's inclusive
MIN_PCAP — is silently rejected by the daita variant (its bound is 30 KiB),
and a pcap of exactly 3 MiB — the claim's inclusive MAX_PCAP — is silently
rejected by the desktop variant (its bound is 3000 KiB = 3072000 bytes). -/
theorem size_bounds_cex :
    daita_post_work ⟨[], [], [], [], [], 1⟩
      ⟨"w1", "https://a.test", "r1", "off", 102400, 10240⟩ =
      (.rejectPcap, ⟨[], [], [], [], [], 1⟩) ∧
    desktop_post_work ⟨[], [], [], [], ["off"], 1⟩
      ⟨"w1", "https://a.test", "r1", "off", 102400, 3145728⟩ =
      (.rejectPcap, ⟨[], [], [], [], ["off"], 1⟩) := by
  decide

/-- C6 amended: out-of-bounds submissions are answered 200 with a negative
body and leave the state untouched; the inclusive bounds are 30 KiB ≤ pcap ≤
1500 KiB and png ≥ 30 KiB in the daita variant, 10 KiB ≤ pcap ≤ 3000 KiB and
png ≥ 10 KiB in the desktop variant; within bounds the submission is never
size-rejected. -/
theorem size_bounds_amended :
    (∀ (st : DaitaSt) (r : PostReq), r.pcapLen < 30 * 1024 ∨ r.pcapLen > 1500 * 1024 →
      daita_post_work st r = (.rejectPcap, st)) ∧
    (∀ (st : DaitaSt) (r : PostReq), 30 * 1024 ≤ r.pcapLen → r.pcapLen ≤ 1500 * 1024 →
      r.pngLen < 30 * 1024 → daita_post_work st r = (.rejectPng, st)) ∧
    (∀ (st : DaitaSt) (r : PostReq), 30 * 1024 ≤ r.pcapLen → r.pcapLen ≤ 1500 * 1024 →
      30 * 1024 ≤ r.pngLen →
      (daita_post_work st r).1 ≠ .rejectPcap ∧ (daita_post_work st r).1 ≠ .rejectPng) ∧
    (∀ (st : DeskSt) (r : PostReq), r.pcapLen < 10 * 1024 ∨ r.pcapLen > 3000 * 1024 →
      desktop_post_work st r = (.rejectPcap, st)) ∧
    (∀ (st : DeskSt) (r : PostReq), 10 * 1024 ≤ r.pcapLen → r.pcapLen ≤ 3000 * 1024 →
      r.pngLen < 10 * 1024 → desktop_post_work st r = (.rejectPng, st)) ∧
    (∀ (st : DeskSt) (r : PostReq), 10 * 1024 ≤ r.pcapLen → r.pcapLen ≤ 3000 * 1024 →
      10 * 1024 ≤ r.pngLen →
      (desktop_post_work st r).1 ≠ .rejectPcap ∧ (desktop_post_work st r).1 ≠ .rejectPng) ∧
    statusOf .rejectPcap = 200 ∧ statusOf .rejectPng = 200 := by
  refine ⟨?_, ?_, ?_, ?_, ?_, ?_, rfl, rfl⟩
  · intro st r h
    simp only [daita_post_work]
    rw [if_pos h]
  · intro st r h1 h2 h3
    simp only [daita_post_work]
    rw [if_neg (by omega), if_pos h3]
  · intro st r h1 h2 h3
    simp only [daita_post_work]
    rw [if_neg (by omega), if_neg (by omega)]
    constructor <;> (repeat' split) <;> simp
  · intro st r h
    simp only [desktop_post_work]
    rw [if_pos h]
  · intro st r h1 h2 h3
    simp only [desktop_post_work]
    rw [if_neg (by omega), if_pos h3]
  · intro st r h1 h2 h3
    simp only [desktop_post_work]
    rw [if_neg (by omega), if_neg (by omega)]
    constructor <;> (repeat' split) <;> simp

theorem size_bounds_amended_witness :
    daita_post_work ⟨[], [], [], [], [], 1⟩
      ⟨"w1", "https://a.test", "r1", "off", 102400, 10240⟩ =
      (.rejectPcap, ⟨[], [], [], [], [], 1⟩) ∧
    daita_post_work ⟨[], [], [], [], [], 1⟩
      ⟨"w1", "https://a.test", "r1", "off", 10240, 30720⟩ =
      (.rejectPng, ⟨[], [], [], [], [], 1⟩) ∧
    (daita_post_work ⟨[], [], [], [], [], 1⟩
      ⟨"w1", "https://a.test", "r1", "off", 30720, 30720⟩).1 ≠ .rejectPcap ∧
    desktop_post_work ⟨[], [], [], [], ["off"], 1⟩
      ⟨"w1", "https://a.test", "r1", "off", 102400, 3145728⟩ =
      (.rejectPcap, ⟨[], [], [], [], ["off"], 1⟩) ∧
    desktop_post_work ⟨[], [], [], [], ["off"], 1⟩
      ⟨"w1", "https://a.test", "r1", "off", 1024, 10240⟩ =
      (.rejectPng, ⟨[], [], [], [], ["off"], 1⟩) ∧
    (desktop_post_work ⟨[], [], [], [], ["off"], 1⟩
      ⟨"w1", "https://a.test", "r1", "off", 10240, 10240⟩).1 ≠ .rejectPng :=
  ⟨size_bounds_amended.1 _ _ (Or.inl (by decide)),
   size_bounds_amended.2.1 _ _ (by decide) (by decide) (by decide),
   (size_bounds_amended.2.2.1 _ _ (by decide) (by decide) (by decide)).1,
   size_bounds_amended.2.2.2.1 _ _ (Or.inr (by decide)),
   size_bounds_amended.2.2.2.2.1 _ _ (by decide) (by decide) (by decide),
   (size_bounds_amended.2.2.2.2.2.1 _ _ (by decide) (by decide) (by decide)).2⟩

/-! ## C7: idempotent excess submission -/

/-- C7: a size-valid submission for a cell whose counter has already reached
`samples` is answered 200 ("already done") with no file written and no
counter or pending change, in both variants. -/
theorem idempotent_excess (st : DaitaSt) (st' : DeskSt) (r r' : PostReq) (c c' : Nat) :
    (30 * 1024 ≤ r.pcapLen → r.pcapLen ≤ 1500 * 1024 → 30 * 1024 ≤ r.pngLen →
      daitaCount st ⟨r.url, r.vpn, r.daita⟩ = some c → st.samples ≤ c →
      daita_post_work st r = (.alreadyDone, st)) ∧
    (10 * 1024 ≤ r'.pcapLen → r'.pcapLen ≤ 3000 * 1024 → 10 * 1024 ≤ r'.pngLen →
      deskCount st' ⟨r'.url, r'.vpn, r'.daita⟩ = some c' → st'.samples ≤ c' →
      desktop_post_work st' r' = (.alreadyDone, st')) ∧
    statusOf .alreadyDone = 200 := by
  refine ⟨?_, ?_, rfl⟩
  · intro h1 h2 h3 hc hge
    simp only [daitaCount] at hc
    split at hc
    · exact Option.noConfusion hc
    next um heq =>
      simp only [daita_post_work, heq, hc]
      rw [if_neg (by omega), if_neg (by omega), if_pos hge]
  · intro h1 h2 h3 hc hge
    simp only [deskCount] at hc
    split at hc
    · exact Option.noConfusion hc
    next um heq =>
      split at hc
      · exact Option.noConfusion hc
      next mm heq2 =>
        injection hc with hc
        simp only [desktop_post_work, heq, heq2]
        rw [if_neg (by omega), if_neg (by omega), if_pos (hc ▸ hge)]

theorem idempotent_excess_witness :
    daitaCount ⟨[("r1", [("https://a.test", 1)])], [("r1", [("https://a.test", 1)])],
        [], [("https://a.test", 0)], [], 1⟩
      ⟨"https://a.test", "r1", "on"⟩ = some 1 ∧
    daita_post_work ⟨[("r1", [("https://a.test", 1)])], [("r1", [("https://a.test", 1)])],
        [], [("https://a.test", 0)], [], 1⟩
      ⟨"w1", "https://a.test", "r1", "on", 30720, 30720⟩ =
      (.alreadyDone, ⟨[("r1", [("https://a.test", 1)])], [("r1", [("https://a.test", 1)])],
        [], [("https://a.test", 0)], [], 1⟩) ∧
    desktop_post_work ⟨[("r1", [("https://a.test", [("off", 1)])])], [],
        [("https://a.test", 0)], [], ["off"], 1⟩
      ⟨"w1", "https://a.test", "r1", "off", 10240, 10240⟩ =
      (.alreadyDone, ⟨[("r1", [("https://a.test", [("off", 1)])])], [],
        [("https://a.test", 0)], [], ["off"], 1⟩) :=
  ⟨by decide,
   (idempotent_excess _ ⟨[], [], [], [], [], 1⟩ _ ⟨"", "", "", "", 0, 0⟩ 1 0).1
     (by decide) (by decide) (by decide) (by decide) (by decide),
   (idempotent_excess ⟨[], [], [], [], [], 1⟩ _ ⟨"", "", "", "", 0, 0⟩ _ 0 1).2.1
     (by decide) (by decide) (by decide) (by decide) (by decide)⟩

/-! ## C10: unknown cell raises KeyError before any write -/

/-- C10: a size-valid submission naming a vpn or url outside the configured
matrix raises an uncaught KeyError (surfaced as a 500-class response) before
any file is written; counters, pending set, and the data directory are
unchanged. -/
theorem unknown_cell_500 (st : DaitaSt) (st' : DeskSt) (r r' : PostReq) :
    (30 * 1024 ≤ r.pcapLen → r.pcapLen ≤ 1500 * 1024 → 30 * 1024 ≤ r.pngLen →
      daitaCount st ⟨r.url, r.vpn, r.daita⟩ = none →
      daita_post_work st r = (.keyErr, st) ∧ statusOf (daita_post_work st r).1 = 500) ∧
    (10 * 1024 ≤ r'.pcapLen → r'.pcapLen ≤ 3000 * 1024 → 10 * 1024 ≤ r'.pngLen →
      deskCount st' ⟨r'.url, r'.vpn, r'.daita⟩ = none →
      desktop_post_work st' r' = (.keyErr, st') ∧
      statusOf (desktop_post_work st' r').1 = 500) := by
  constructor
  · intro h1 h2 h3 hc
    simp only [daitaCount] at hc
    have hres : daita_post_work st r = (.keyErr, st) := by
      split at hc
      next heq =>
        simp only [daita_post_work, heq]
        rw [if_neg (by omega), if_neg (by omega)]
      next um heq =>
        simp only [daita_post_work, heq, hc]
        rw [if_neg (by omega), if_neg (by omega)]
    refine ⟨hres, ?_⟩
    rw [hres]
    rfl
  · intro h1 h2 h3 hc
    simp only [deskCount] at hc
    have hres : desktop_post_work st' r' = (.keyErr, st') := by
      split at hc
      next heq =>
        simp only [desktop_post_work, heq]
        rw [if_neg (by omega), if_neg (by omega)]
      next um heq =>
        split at hc
        next heq2 =>
          simp only [desktop_post_work, heq, heq2]
          rw [if_neg (by omega), if_neg (by omega)]
        next mm heq2 =>
          exact Option.noConfusion hc
    refine ⟨hres, ?_⟩
    rw [hres]
    rfl

theorem unknown_cell_500_witness :
    daitaCount ⟨[], [], [], [], [], 1⟩ ⟨"https://a.test", "r9", "on"⟩ = none ∧
    daita_post_work ⟨[], [], [], [], [], 1⟩
      ⟨"w1", "https://a.test", "r9", "on", 30720, 30720⟩ = (.keyErr, ⟨[], [], [], [], [], 1⟩) ∧
    desktop_post_work ⟨[], [], [], [], ["off"], 1⟩
      ⟨"w1", "https://a.test", "r9", "off", 10240, 10240⟩ =
      (.keyErr, ⟨[], [], [], [], ["off"], 1⟩) :=
  ⟨by decide,
   ((unknown_cell_500 _ ⟨[], [], [], [], [], 1⟩ _ ⟨"", "", "", "", 0, 0⟩).1
     (by decide) (by decide) (by decide) (by decide)).1,
   ((unknown_cell_500 ⟨[], [], [], [], [], 1⟩ _ ⟨"", "", "", "", 0, 0⟩ _).2
     (by decide) (by decide) (by decide) (by decide)).1⟩

/-! ## C9: sample-number allocation -/

theorem le_foldl_max (l : List Nat) (a : Nat) :
    a ≤ l.foldl max a ∧ ∀ x ∈ l, x ≤ l.foldl max a := by
  induction l generalizing a with
  | nil => simp
  | cons y t ih =>
    obtain ⟨h1, h2⟩ := ih (max a y)
    simp only [List.foldl_cons]
    refine ⟨le_trans (le_max_left a y) h1, ?_⟩
    intro x hx
    rcases List.mem_cons.mp hx with h₃ | h₃
    · rw [h₃]
      exact le_trans (le_max_right a y) h1
    · exact h2 x h₃

theorem get_free_sample_aux_spec (dir : List SFile) :
    ∀ (fuel s : Nat),
      ((List.range' s fuel).filter (fun k => decide ((k, ".png") ∈ dir))).length < fuel →
      (get_free_sample_aux dir fuel s, ".png") ∉ dir := by
  intro fuel
  induction fuel with
  | zero =>
    intro s h
    exact absurd h (Nat.not_lt_zero _)
  | succ n ih =>
    intro s h
    by_cases hmem : (s, ".png") ∈ dir
    · rw [show get_free_sample_aux dir (n + 1) s = get_free_sample_aux dir n (s + 1) by
        simp [get_free_sample_aux, hmem]]
      apply ih
      rw [List.range'_succ] at h
      rw [List.filter_cons_of_pos (by simpa using hmem)] at h
      simpa using Nat.lt_of_succ_lt_succ (by simpa using h)
    · rw [show get_free_sample_aux dir (n + 1) s = s by simp [get_free_sample_aux, hmem]]
      exact hmem

/-- The daita allocator's result carries no existing `.png` stem: the while
loop leaves its fuel bound unexhausted because a directory of `L` entries
cannot contain `L + 1` distinct `.png` names. -/
theorem get_free_sample_fresh (dir : List SFile) :
    (get_free_sample dir, ".png") ∉ dir := by
  apply get_free_sample_aux_spec
  have hnodup : ((List.range' 0 (dir.length + 1)).filter
      (fun k => decide ((k, ".png") ∈ dir))).Nodup :=
    (List.nodup_range' 0 (dir.length + 1)).filter _
  have hinj : Function.Injective (fun k : Nat => (k, ".png")) := by
    intro a b hab
    exact congrArg Prod.fst hab
  have hmapnd : (((List.range' 0 (dir.length + 1)).filter
      (fun k => decide ((k, ".png") ∈ dir))).map fun k => (k, ".png")).Nodup :=
    hnodup.map hinj
  have hsub : (((List.range' 0 (dir.length + 1)).filter
      (fun k => decide ((k, ".png") ∈ dir))).map fun k => (k, ".png")) ⊆ dir := by
    intro x hx
    obtain ⟨k, hk, rfl⟩ := List.mem_map.mp hx
    have hmem := List.of_mem_filter hk
    simpa using hmem
  have hle := (List.subperm_of_subset hmapnd hsub).length_le
  rw [List.length_map] at hle
  exact Nat.lt_of_le_of_lt hle (Nat.lt_succ_self _)

/-- C9 counterexample: with only `0.pcap` on disk, the daita allocator
returns stem 0, which collides with the existing `.pcap` file — the
subsequent three-file write at that stem overwrites it. -/
theorem sample_alloc_cex :
    get_free_sample [((0 : Nat), ".pcap")] = 0 ∧
    ((0 : Nat), ".pcap") ∈ [((0 : Nat), ".pcap")] := by
  decide

/-- C9 amended: the desktop allocator (`max(existing) + 1`) never collides
with the integer stem of any existing file; the daita allocator only avoids
stems of existing `.png` files (it returns the smallest stem with no
`.png`). -/
theorem sample_alloc_amended (dir : List SFile) (f : SFile) :
    (f ∈ dir → f.1 ≠ get_free_sample_num dir) ∧
    (get_free_sample dir, ".png") ∉ dir := by
  refine ⟨?_, get_free_sample_fresh dir⟩
  intro hf
  have hmem : f.1 ∈ dir.map Prod.fst := List.mem_map_of_mem Prod.fst hf
  unfold get_free_sample_num
  cases hm : dir.map Prod.fst with
  | nil => rw [hm] at hmem; simp at hmem
  | cons x xs =>
    rw [hm] at hmem
    show f.1 ≠ xs.foldl max x + 1
    rcases List.mem_cons.mp hmem with h₁ | h₁
    · have := (le_foldl_max xs x).1
      omega
    · have := (le_foldl_max xs x).2 f.1 h₁
      omega

theorem sample_alloc_amended_witness :
    (((3 : Nat), ".json") ∈ [((0 : Nat), ".png"), (3, ".json")] →
      (3 : Nat) ≠ get_free_sample_num [((0 : Nat), ".png"), (3, ".json")]) ∧
    (get_free_sample [((0 : Nat), ".png"), (3, ".json")], ".png") ∉
      [((0 : Nat), ".png"), (3, ".json")] :=
  sample_alloc_amended [((0 : Nat), ".png"), (3, ".json")] (3, ".json")

/-! ## C1: pending-set correctness invariant -/

theorem filterMap_ite_eq {α β : Type} (l : List α) (p : α → Prop) [DecidablePred p]
    (g : α → β) :
    (l.filterMap fun a => if p a then some (g a) else none) =
      (l.filter fun a => decide (p a)).map g := by
  induction l with
  | nil => rfl
  | cons x t ih =>
    by_cases h : p x
    · simp [List.filterMap_cons, List.filter_cons, h, ih]
    · simp [List.filterMap_cons, List.filter_cons, h, ih]

theorem mem_openVisits {dd : DoneA} {m : String} {s : Nat} {v : Visit} :
    v ∈ openVisits dd m s ↔
      ∃ p ∈ dd, ∃ q ∈ p.2, q.2 < s ∧ v = ⟨q.1, p.1, m⟩ := by
  unfold openVisits
  rw [List.mem_flatMap]
  constructor
  · rintro ⟨p, hp, hv⟩
    rw [List.mem_filterMap] at hv
    obtain ⟨q, hq, hqv⟩ := hv
    by_cases h : q.2 < s
    · rw [if_pos h] at hqv
      injection hqv with hqv
      exact ⟨p, hp, q, hq, h, hqv.symm⟩
    · rw [if_neg h] at hqv
      exact Option.noConfusion hqv
  · rintro ⟨p, hp, q, hq, h, rfl⟩
    exact ⟨p, hp, List.mem_filterMap.mpr ⟨q, hq, by rw [if_pos h]⟩⟩

theorem nodup_openVisits (dd : DoneA) (m : String) (s : Nat) (hwf : DoneAWF dd) :
    (openVisits dd m s).Nodup := by
  unfold openVisits
  rw [List.nodup_flatMap]
  constructor
  · intro p hp
    rw [filterMap_ite_eq]
    apply List.Nodup.map_on
    · intro x hx y hy hxy
      exact List.inj_on_of_nodup_map (hwf.2 p hp) (List.mem_of_mem_filter hx)
        (List.mem_of_mem_filter hy) (congrArg Visit.url hxy)
    · exact (List.Nodup.of_map Prod.fst (hwf.2 p hp)).filter _
  · have hpw : List.Pairwise (fun a b : String × List (String × Nat) => a.1 ≠ b.1) dd :=
      List.pairwise_map.mp hwf.1
    apply hpw.imp
    intro a b hab
    intro v hva hvb
    rw [List.mem_filterMap] at hva hvb
    obtain ⟨q, _, hq⟩ := hva
    obtain ⟨q', _, hq'⟩ := hvb
    by_cases h1 : q.2 < s
    · rw [if_pos h1] at hq
      by_cases h2 : q'.2 < s
      · rw [if_pos h2] at hq'
        injection hq with hq
        injection hq' with hq'
        exact hab (congrArg Visit.vpn (hq.trans hq'.symm))
      · rw [if_neg h2] at hq'
        exact Option.noConfusion hq'
    · rw [if_neg h1] at hq
      exact Option.noConfusion hq

theorem daitaOpen_iff {st : DaitaSt} {v : Visit} :
    daitaOpen st v = true ↔
      ∃ um c, alookup (if v.daita = "on" then st.don else st.doff) v.vpn = some um ∧
        alookup um v.url = some c ∧ c < st.samples := by
  unfold daitaOpen daitaCount
  constructor
  · intro h
    split at h
    next c heq =>
      split at heq
      · exact Option.noConfusion heq
      next um hum =>
        exact ⟨um, c, hum, heq, by simpa using h⟩
    next heq => exact absurd h (by simp)
  · rintro ⟨um, c, hum, hurl, hc⟩
    simp only [hum, hurl]
    simpa using hc

theorem deskOpen_iff {st : DeskSt} {v : Visit} :
    deskOpen st v = true ↔
      ∃ um mm, alookup st.done v.vpn = some um ∧ alookup um v.url = some mm ∧
        (alookup mm v.daita).getD 0 < st.samples := by
  unfold deskOpen deskCount
  constructor
  · intro h
    split at h
    next c heq =>
      split at heq
      · exact Option.noConfusion heq
      next um hum =>
        split at heq
        · exact Option.noConfusion heq
        next mm hmm =>
          injection heq with heq
          exact ⟨um, mm, hum, hmm, by rw [heq]; simpa using h⟩
    next heq => exact absurd h (by simp)
  · rintro ⟨um, mm, hum, hmm, hc⟩
    simp only [hum, hmm]
    simpa using hc

/-- C1, boot, daita variant: after `setup_visit_list` builds `pending_visits`
from the recovered counters, a cell is pending iff its counter is < samples. -/
theorem daita_boot_inv (don doff : DoneA) (u2l : List (String × Nat))
    (fs : List (CellKey × List SFile)) (samples : Nat)
    (hon : DoneAWF don) (hoff : DoneAWF doff) :
    DaitaInv ⟨don, doff, setup_visit_list don doff samples, u2l, fs, samples⟩ := by
  refine ⟨?_, ?_, ?_, ?_⟩
  · apply List.Nodup.append (nodup_openVisits don "on" samples hon)
      (nodup_openVisits doff "off" samples hoff)
    intro v hv1 hv2
    obtain ⟨p, hp, q, hq, hlt, rfl⟩ := mem_openVisits.mp hv1
    obtain ⟨p', hp', q', hq', hlt', he⟩ := mem_openVisits.mp hv2
    have hne : ("on" : String) ≠ "off" := by decide
    exact absurd (congrArg Visit.daita he) hne
  · intro v hv
    rcases List.mem_append.mp hv with h | h
    · obtain ⟨p, hp, q, hq, hlt, rfl⟩ := mem_openVisits.mp h
      refine ⟨Or.inl rfl, daitaOpen_iff.mpr ⟨p.2, q.2, ?_, ?_, hlt⟩⟩
      · rw [if_pos rfl]
        exact mem_alookup hon.1 hp
      · exact mem_alookup (hon.2 p hp) hq
    · obtain ⟨p, hp, q, hq, hlt, rfl⟩ := mem_openVisits.mp h
      refine ⟨Or.inr rfl, daitaOpen_iff.mpr ⟨p.2, q.2, ?_, ?_, hlt⟩⟩
      · have hne : ("off" : String) ≠ "on" := by decide
        rw [if_neg (show ¬(Visit.daita ⟨q.1, p.1, "off"⟩ = "on") from hne)]
        exact mem_alookup hoff.1 hp
      · exact mem_alookup (hoff.2 p hp) hq
  · intro p hp q hq hlt
    exact List.mem_append_left _ (mem_openVisits.mpr ⟨p, hp, q, hq, hlt, rfl⟩)
  · intro p hp q hq hlt
    exact List.mem_append_right _ (mem_openVisits.mpr ⟨p, hp, q, hq, hlt, rfl⟩)

theorem daita_accept_inv_on (don doff : DoneA) (pending : List Visit)
    (u2l : List (String × Nat)) (fs fs' : List (CellKey × List SFile)) (samples : Nat)
    (vpn url : String) (um : List (String × Nat)) (c : Nat)
    (hwfon : DoneAWF don)
    (hinv : DaitaInv ⟨don, doff, pending, u2l, fs, samples⟩)
    (hvpn : alookup don vpn = some um)
    (hurl : alookup um url = some c)
    (hc : c < samples) :
    DaitaInv ⟨aset don vpn (aset um url (c + 1)), doff,
      if c + 1 ≥ samples then removeFirst pending ⟨url, vpn, "on"⟩ else pending,
      u2l, fs', samples⟩ := by
  obtain ⟨hnd, hmem, hon, hoff⟩ := hinv
  have htarget : (⟨url, vpn, "on"⟩ : Visit) ∈ pending :=
    hon (vpn, um) (alookup_mem hvpn) (url, c) (alookup_mem hurl) hc
  have humnd : (um.map Prod.fst).Nodup := hwfon.2 (vpn, um) (alookup_mem hvpn)
  have hkeep : ∀ x ∈ pending, x ≠ (⟨url, vpn, "on"⟩ : Visit) →
      x ∈ (if c + 1 ≥ samples then removeFirst pending ⟨url, vpn, "on"⟩ else pending) := by
    intro x hx hne
    by_cases hcond : c + 1 ≥ samples
    · rw [if_pos hcond]
      exact mem_removeFirst_of_ne hx hne
    · rw [if_neg hcond]
      exact hx
  have hsub : ∀ x, x ∈ (if c + 1 ≥ samples then removeFirst pending ⟨url, vpn, "on"⟩
      else pending) → x ∈ pending := by
    intro x hx
    by_cases hcond : c + 1 ≥ samples
    · rw [if_pos hcond] at hx
      exact mem_of_mem_removeFirst hx
    · rw [if_neg hcond] at hx
      exact hx
  refine ⟨?_, ?_, ?_, ?_⟩
  · by_cases hcond : c + 1 ≥ samples
    · rw [if_pos hcond]
      exact nodup_removeFirst _ hnd
    · rw [if_neg hcond]
      exact hnd
  · rintro ⟨vu, vv, vd⟩ hv
    have hvp := hsub _ hv
    obtain ⟨hmode, hopen⟩ := hmem _ hvp
    refine ⟨hmode, ?_⟩
    obtain ⟨um₀, c₀, hum₀, hurl₀, hc₀⟩ := daitaOpen_iff.mp hopen
    rcases hmode with hvd | hvd
    · simp only at hvd
      subst hvd
      rw [if_pos rfl] at hum₀
      by_cases hvv : vv = vpn
      · subst hvv
        have hum₀' : um₀ = um := by
          rw [hvpn] at hum₀
          exact (Option.some.injEq .. ▸ hum₀.symm :)
        subst hum₀'
        by_cases hvu : vu = url
        · subst hvu
          by_cases hcond : c + 1 ≥ samples
          · rw [if_pos hcond] at hv
            exact absurd hv (not_mem_removeFirst_self _ hnd)
          · refine daitaOpen_iff.mpr ⟨aset um₀ vu (c + 1), c + 1, ?_, ?_, ?_⟩
            · rw [if_pos rfl]
              exact alookup_aset_self _ _ _
            · exact alookup_aset_self _ _ _
            · show c + 1 < samples
              omega
        · refine daitaOpen_iff.mpr ⟨aset um₀ url (c + 1), c₀, ?_, ?_, hc₀⟩
          · rw [if_pos rfl]
            exact alookup_aset_self _ _ _
          · rw [alookup_aset_ne _ _ _ _ hvu]
            exact hurl₀
      · refine daitaOpen_iff.mpr ⟨um₀, c₀, ?_, hurl₀, hc₀⟩
        rw [if_pos rfl, alookup_aset_ne _ _ _ _ hvv]
        exact hum₀
    · simp only at hvd
      subst hvd
      have hne : ("off" : String) ≠ "on" := by decide
      rw [if_neg hne] at hum₀
      refine daitaOpen_iff.mpr ⟨um₀, c₀, ?_, hurl₀, hc₀⟩
      rw [if_neg hne]
      exact hum₀
  · rintro ⟨pv, pum⟩ hp ⟨qu, qc⟩ hq hqlt
    rcases (mem_aset_iff hwfon.1 pv pum).mp hp with ⟨hpv, hpum⟩ | ⟨hpne, hpmem⟩
    · subst hpv
      subst hpum
      rcases (mem_aset_iff humnd qu qc).mp hq with ⟨hqu, hqc⟩ | ⟨hqne, hqmem⟩
      · subst hqu
        subst hqc
        simp only at hqlt
        rw [if_neg (by omega)]
        exact htarget
      · have hvis := hon (pv, um) (alookup_mem hvpn) (qu, qc) hqmem hqlt
        apply hkeep _ hvis
        intro he
        exact hqne (congrArg Visit.url he)
    · have hvis := hon (pv, pum) hpmem (qu, qc) hq hqlt
      apply hkeep _ hvis
      intro he
      exact hpne (congrArg Visit.vpn he)
  · intro p hp q hq hqlt
    have hvis := hoff p hp q hq hqlt
    apply hkeep _ hvis
    intro he
    have hne : ("off" : String) ≠ "on" := by decide
    exact hne (congrArg Visit.daita he)

theorem daita_accept_inv_off (don doff : DoneA) (pending : List Visit)
    (u2l : List (String × Nat)) (fs fs' : List (CellKey × List SFile)) (samples : Nat)
    (vpn url : String) (um : List (String × Nat)) (c : Nat)
    (hwfoff : DoneAWF doff)
    (hinv : DaitaInv ⟨don, doff, pending, u2l, fs, samples⟩)
    (hvpn : alookup doff vpn = some um)
    (hurl : alookup um url = some c)
    (hc : c < samples) :
    DaitaInv ⟨don, aset doff vpn (aset um url (c + 1)),
      if c + 1 ≥ samples then removeFirst pending ⟨url, vpn, "off"⟩ else pending,
      u2l, fs', samples⟩ := by
  obtain ⟨hnd, hmem, hon, hoff⟩ := hinv
  have hne : ("off" : String) ≠ "on" := by decide
  have hne' : ("on" : String) ≠ "off" := by decide
  have htarget : (⟨url, vpn, "off"⟩ : Visit) ∈ pending :=
    hoff (vpn, um) (alookup_mem hvpn) (url, c) (alookup_mem hurl) hc
  have humnd : (um.map Prod.fst).Nodup := hwfoff.2 (vpn, um) (alookup_mem hvpn)
  have hkeep : ∀ x ∈ pending, x ≠ (⟨url, vpn, "off"⟩ : Visit) →
      x ∈ (if c + 1 ≥ samples then removeFirst pending ⟨url, vpn, "off"⟩ else pending) := by
    intro x hx hxe
    by_cases hcond : c + 1 ≥ samples
    · rw [if_pos hcond]
      exact mem_removeFirst_of_ne hx hxe
    · rw [if_neg hcond]
      exact hx
  have hsub : ∀ x, x ∈ (if c + 1 ≥ samples then removeFirst pending ⟨url, vpn, "off"⟩
      else pending) → x ∈ pending := by
    intro x hx
    by_cases hcond : c + 1 ≥ samples
    · rw [if_pos hcond] at hx
      exact mem_of_mem_removeFirst hx
    · rw [if_neg hcond] at hx
      exact hx
  refine ⟨?_, ?_, ?_, ?_⟩
  · by_cases hcond : c + 1 ≥ samples
    · rw [if_pos hcond]
      exact nodup_removeFirst _ hnd
    · rw [if_neg hcond]
      exact hnd
  · rintro ⟨vu, vv, vd⟩ hv
    have hvp := hsub _ hv
    obtain ⟨hmode, hopen⟩ := hmem _ hvp
    refine ⟨hmode, ?_⟩
    obtain ⟨um₀, c₀, hum₀, hurl₀, hc₀⟩ := daitaOpen_iff.mp hopen
    rcases hmode with hvd | hvd
    · simp only at hvd
      subst hvd
      rw [if_pos rfl] at hum₀
      refine daitaOpen_iff.mpr ⟨um₀, c₀, ?_, hurl₀, hc₀⟩
      rw [if_pos rfl]
      exact hum₀
    · simp only at hvd
      subst hvd
      rw [if_neg hne] at hum₀
      by_cases hvv : vv = vpn
      · subst hvv
        have hum₀' : um₀ = um := by
          rw [hvpn] at hum₀
          injection hum₀.symm
        subst hum₀'
        by_cases hvu : vu = url
        · subst hvu
          by_cases hcond : c + 1 ≥ samples
          · rw [if_pos hcond] at hv
            exact absurd hv (not_mem_removeFirst_self _ hnd)
          · refine daitaOpen_iff.mpr ⟨aset um₀ vu (c + 1), c + 1, ?_, ?_, ?_⟩
            · rw [if_neg hne]
              exact alookup_aset_self _ _ _
            · exact alookup_aset_self _ _ _
            · show c + 1 < samples
              omega
        · refine daitaOpen_iff.mpr ⟨aset um₀ url (c + 1), c₀, ?_, ?_, hc₀⟩
          · rw [if_neg hne]
            exact alookup_aset_self _ _ _
          · rw [alookup_aset_ne _ _ _ _ hvu]
            exact hurl₀
      · refine daitaOpen_iff.mpr ⟨um₀, c₀, ?_, hurl₀, hc₀⟩
        rw [if_neg hne, alookup_aset_ne _ _ _ _ hvv]
        exact hum₀
  · intro p hp q hq hqlt
    have hvis := hon p hp q hq hqlt
    apply hkeep _ hvis
    intro he
    exact hne' (congrArg Visit.daita he)
  · rintro ⟨pv, pum⟩ hp ⟨qu, qc⟩ hq hqlt
    rcases (mem_aset_iff hwfoff.1 pv pum).mp hp with ⟨hpv, hpum⟩ | ⟨hpne, hpmem⟩
    · subst hpv
      subst hpum
      rcases (mem_aset_iff humnd qu qc).mp hq with ⟨hqu, hqc⟩ | ⟨hqne, hqmem⟩
      · subst hqu
        subst hqc
        simp only at hqlt
        rw [if_neg (by omega)]
        exact htarget
      · have hvis := hoff (pv, um) (alookup_mem hvpn) (qu, qc) hqmem hqlt
        apply hkeep _ hvis
        intro he
        exact hqne (congrArg Visit.url he)
    · have hvis := hoff (pv, pum) hpmem (qu, qc) hq hqlt
      apply hkeep _ hvis
      intro he
      exact hpne (congrArg Visit.vpn he)

/-- C1, mutation, daita variant: `post_work` preserves the pending-set
invariant on every outcome (rejections and errors leave the state unchanged;
an accepted sample increments the cell and unpends it exactly when it
reaches `samples`). -/
theorem daita_post_inv (st : DaitaSt) (r : PostReq)
    (hwf : DaitaWF st) (hinv : DaitaInv st) :
    DaitaInv (daita_post_work st r).2 := by
  obtain ⟨hwon, hwoff, hwfs⟩ := hwf
  have hne : ("off" : String) ≠ "on" := by decide
  simp only [daita_post_work]
  split
  · exact hinv
  split
  · exact hinv
  split
  next => exact hinv
  next um heqv =>
    split
    next => exact hinv
    next c hequ =>
      split
      · exact hinv
      next hge =>
        have hc : c < st.samples := Nat.lt_of_not_le hge
        split
        next => exact hinv
        next site hsite =>
          split
          next => exact hinv
          next dir hdir =>
            have hmode := hwfs _ (alookup_mem hdir)
            split
            next hdon =>
              rw [hdon] at heqv ⊢
              exact daita_accept_inv_on st.don st.doff st.pending st.url2line st.fs _
                st.samples r.vpn r.url um c hwon hinv heqv hequ hc
            next hdon =>
              rcases hmode with h | h
              · exact absurd h hdon
              · rw [show r.daita = "off" from h] at heqv ⊢
                exact daita_accept_inv_off st.don st.doff st.pending st.url2line st.fs _
                  st.samples r.vpn r.url um c hwoff hinv heqv hequ hc

theorem mem_init_visit_list {done : DoneD} {modes : List String} {s : Nat} {v : Visit} :
    v ∈ init_visit_list done modes s ↔
      ∃ p ∈ done, ∃ q ∈ p.2, ∃ m ∈ modes,
        (alookup q.2 m).getD 0 < s ∧ v = ⟨q.1, p.1, m⟩ := by
  unfold init_visit_list
  rw [List.mem_flatMap]
  constructor
  · rintro ⟨p, hp, hv⟩
    rw [List.mem_flatMap] at hv
    obtain ⟨q, hq, hv⟩ := hv
    rw [List.mem_filterMap] at hv
    obtain ⟨m, hm, hmv⟩ := hv
    by_cases h : (alookup q.2 m).getD 0 < s
    · rw [if_pos h] at hmv
      injection hmv with hmv
      exact ⟨p, hp, q, hq, m, hm, h, hmv.symm⟩
    · rw [if_neg h] at hmv
      exact Option.noConfusion hmv
  · rintro ⟨p, hp, q, hq, m, hm, h, rfl⟩
    refine ⟨p, hp, List.mem_flatMap.mpr ⟨q, hq, List.mem_filterMap.mpr ⟨m, hm, ?_⟩⟩⟩
    rw [if_pos h]

theorem nodup_init_visit_list (done : DoneD) (modes : List String) (s : Nat)
    (hwf : DoneDWF done) (hmodes : modes.Nodup) :
    (init_visit_list done modes s).Nodup := by
  unfold init_visit_list
  rw [List.nodup_flatMap]
  constructor
  · intro p hp
    rw [List.nodup_flatMap]
    constructor
    · intro q hq
      rw [filterMap_ite_eq]
      apply List.Nodup.map_on
      · intro x hx y hy hxy
        exact congrArg Visit.daita hxy
      · exact hmodes.filter _
    · have hpw : List.Pairwise (fun a b : String × List (String × Nat) => a.1 ≠ b.1) p.2 :=
        List.pairwise_map.mp (hwf.2 p hp)
      apply hpw.imp
      intro a b hab v hva hvb
      rw [List.mem_filterMap] at hva hvb
      obtain ⟨m, _, hm⟩ := hva
      obtain ⟨m', _, hm'⟩ := hvb
      by_cases h1 : (alookup a.2 m).getD 0 < s
      · rw [if_pos h1] at hm
        by_cases h2 : (alookup b.2 m').getD 0 < s
        · rw [if_pos h2] at hm'
          injection hm with hm
          injection hm' with hm'
          exact hab (congrArg Visit.url (hm.trans hm'.symm))
        · rw [if_neg h2] at hm'
          exact Option.noConfusion hm'
      · rw [if_neg h1] at hm
        exact Option.noConfusion hm
  · have hpw : List.Pairwise
        (fun a b : String × List (String × List (String × Nat)) => a.1 ≠ b.1) done :=
      List.pairwise_map.mp hwf.1
    apply hpw.imp
    intro a b hab v hva hvb
    rw [List.mem_flatMap] at hva hvb
    obtain ⟨q, _, hva⟩ := hva
    obtain ⟨q', _, hvb⟩ := hvb
    rw [List.mem_filterMap] at hva hvb
    obtain ⟨m, _, hm⟩ := hva
    obtain ⟨m', _, hm'⟩ := hvb
    by_cases h1 : (alookup q.2 m).getD 0 < s
    · rw [if_pos h1] at hm
      by_cases h2 : (alookup q'.2 m').getD 0 < s
      · rw [if_pos h2] at hm'
        injection hm with hm
        injection hm' with hm'
        exact hab (congrArg Visit.vpn (hm.trans hm'.symm))
      · rw [if_neg h2] at hm'
        exact Option.noConfusion hm'
    · rw [if_neg h1] at hm
      exact Option.noConfusion hm

/-- C1, boot, desktop variant: after `_init_visit_list` builds
`pending_visits` from the recovered counters, a cell is pending iff its
counter is < samples. -/
theorem desktop_boot_inv (done : DoneD) (u2l : List (String × Nat))
    (fs : List (CellKey × List SFile)) (modes : List String) (samples : Nat)
    (hwf : DoneDWF done) (hmodes : modes.Nodup) :
    DeskInv ⟨done, init_visit_list done modes samples, u2l, fs, modes, samples⟩ := by
  refine ⟨nodup_init_visit_list done modes samples hwf hmodes, ?_, ?_⟩
  · intro v hv
    obtain ⟨p, hp, q, hq, m, hm, hlt, rfl⟩ := mem_init_visit_list.mp hv
    exact ⟨hm, deskOpen_iff.mpr
      ⟨p.2, q.2, mem_alookup hwf.1 hp, mem_alookup (hwf.2 p hp) hq, hlt⟩⟩
  · intro p hp q hq m hm hlt
    exact mem_init_visit_list.mpr ⟨p, hp, q, hq, m, hm, hlt, rfl⟩

theorem desktop_accept_inv (done : DoneD) (pending : List Visit)
    (u2l : List (String × Nat)) (fs fs' : List (CellKey × List SFile))
    (modes : List String) (samples : Nat) (vpn url mode : String)
    (um : List (String × List (String × Nat))) (mm : List (String × Nat)) (c : Nat)
    (hwf : DoneDWF done)
    (hinv : DeskInv ⟨done, pending, u2l, fs, modes, samples⟩)
    (hvpn : alookup done vpn = some um)
    (hurl : alookup um url = some mm)
    (hmode : mode ∈ modes)
    (hceq : (alookup mm mode).getD 0 = c)
    (hc : c < samples) :
    DeskInv ⟨aset done vpn (aset um url (aset mm mode (c + 1))),
      if c + 1 ≥ samples then removeFirst pending ⟨url, vpn, mode⟩ else pending,
      u2l, fs', modes, samples⟩ := by
  obtain ⟨hnd, hmem, hcells⟩ := hinv
  have htarget : (⟨url, vpn, mode⟩ : Visit) ∈ pending :=
    hcells (vpn, um) (alookup_mem hvpn) (url, mm) (alookup_mem hurl) mode hmode
      (hceq ▸ hc)
  have humnd : (um.map Prod.fst).Nodup := hwf.2 (vpn, um) (alookup_mem hvpn)
  have hkeep : ∀ x ∈ pending, x ≠ (⟨url, vpn, mode⟩ : Visit) →
      x ∈ (if c + 1 ≥ samples then removeFirst pending ⟨url, vpn, mode⟩ else pending) := by
    intro x hx hxe
    by_cases hcond : c + 1 ≥ samples
    · rw [if_pos hcond]
      exact mem_removeFirst_of_ne hx hxe
    · rw [if_neg hcond]
      exact hx
  have hsub : ∀ x, x ∈ (if c + 1 ≥ samples then removeFirst pending ⟨url, vpn, mode⟩
      else pending) → x ∈ pending := by
    intro x hx
    by_cases hcond : c + 1 ≥ samples
    · rw [if_pos hcond] at hx
      exact mem_of_mem_removeFirst hx
    · rw [if_neg hcond] at hx
      exact hx
  refine ⟨?_, ?_, ?_⟩
  · by_cases hcond : c + 1 ≥ samples
    · rw [if_pos hcond]
      exact nodup_removeFirst _ hnd
    · rw [if_neg hcond]
      exact hnd
  · rintro ⟨vu, vv, vd⟩ hv
    have hvp := hsub _ hv
    obtain ⟨hm, hopen⟩ := hmem _ hvp
    refine ⟨hm, ?_⟩
    obtain ⟨um₀, mm₀, hum₀, hmm₀, hc₀⟩ := deskOpen_iff.mp hopen
    by_cases hvv : vv = vpn
    · subst hvv
      have hum₀' : um₀ = um := by
        rw [hvpn] at hum₀
        injection hum₀.symm
      subst hum₀'
      by_cases hvu : vu = url
      · subst hvu
        have hmm₀' : mm₀ = mm := by
          rw [hurl] at hmm₀
          injection hmm₀.symm
        subst hmm₀'
        by_cases hvd : vd = mode
        · subst hvd
          by_cases hcond : c + 1 ≥ samples
          · rw [if_pos hcond] at hv
            exact absurd hv (not_mem_removeFirst_self _ hnd)
          · refine deskOpen_iff.mpr ⟨aset um₀ vu (aset mm₀ vd (c + 1)),
              aset mm₀ vd (c + 1), alookup_aset_self _ _ _, alookup_aset_self _ _ _, ?_⟩
            rw [alookup_aset_self]
            show (some (c + 1)).getD 0 < samples
            simp only [Option.getD_some]
            omega
        · refine deskOpen_iff.mpr ⟨aset um₀ vu (aset mm₀ mode (c + 1)),
            aset mm₀ mode (c + 1), alookup_aset_self _ _ _, alookup_aset_self _ _ _, ?_⟩
          rw [alookup_aset_ne _ _ _ _ hvd]
          exact hc₀
      · refine deskOpen_iff.mpr ⟨aset um₀ url (aset mm mode (c + 1)), mm₀,
          alookup_aset_self _ _ _, ?_, hc₀⟩
        rw [alookup_aset_ne _ _ _ _ hvu]
        exact hmm₀
    · refine deskOpen_iff.mpr ⟨um₀, mm₀, ?_, hmm₀, hc₀⟩
      rw [alookup_aset_ne _ _ _ _ hvv]
      exact hum₀
  · rintro ⟨pv, pum⟩ hp ⟨qu, qmm⟩ hq m hm hqlt
    rcases (mem_aset_iff hwf.1 pv pum).mp hp with ⟨hpv, hpum⟩ | ⟨hpne, hpmem⟩
    · subst hpv
      subst hpum
      rcases (mem_aset_iff humnd qu qmm).mp hq with ⟨hqu, hqmm⟩ | ⟨hqne, hqmem⟩
      · subst hqu
        subst hqmm
        by_cases hmm' : m = mode
        · subst hmm'
          simp only at hqlt
          rw [alookup_aset_self] at hqlt
          simp only [Option.getD_some] at hqlt
          rw [if_neg (by omega)]
          exact htarget
        · simp only at hqlt
          rw [alookup_aset_ne _ _ _ _ hmm'] at hqlt
          have hvis := hcells (pv, um) (alookup_mem hvpn) (qu, mm) (alookup_mem hurl)
            m hm hqlt
          apply hkeep _ hvis
          intro he
          exact hmm' (congrArg Visit.daita he)
      · have hvis := hcells (pv, um) (alookup_mem hvpn) (qu, qmm) hqmem m hm hqlt
        apply hkeep _ hvis
        intro he
        exact hqne (congrArg Visit.url he)
    · have hvis := hcells (pv, pum) hpmem (qu, qmm) hq m hm hqlt
      apply hkeep _ hvis
      intro he
      exact hpne (congrArg Visit.vpn he)

/-- C1, mutation, desktop variant: `post_work` preserves the pending-set
invariant on every outcome. -/
theorem desktop_post_inv (st : DeskSt) (r : PostReq)
    (hwf : DeskWF st) (hinv : DeskInv st) :
    DeskInv (desktop_post_work st r).2 := by
  obtain ⟨hwfd, hmodesnd, hwfs⟩ := hwf
  simp only [desktop_post_work]
  split
  · exact hinv
  split
  · exact hinv
  split
  next => exact hinv
  next um heqv =>
    split
    next => exact hinv
    next mm hequ =>
      split
      · exact hinv
      next hge =>
        have hc : (alookup mm r.daita).getD 0 < st.samples := Nat.lt_of_not_le hge
        split
        next => exact hinv
        next site hsite =>
          split
          next => exact hinv
          next dir hdir =>
            have hmode : r.daita ∈ st.modes := hwfs _ (alookup_mem hdir)
            exact desktop_accept_inv st.done st.pending st.url2line st.fs _
              st.modes st.samples r.vpn r.url r.daita um mm
              ((alookup mm r.daita).getD 0) hwfd hinv heqv hequ hmode rfl hc

/-- C1: pending-set correctness invariant.  At boot the pending set built
from the recovered counters satisfies I2 (a matrix cell is pending iff its
counter is < `samples`), and every POST /work completion — the only
lock-guarded mutation of counters or pending set — preserves I2, in both
variants. -/
theorem pending_set_invariant :
    (∀ (don doff : DoneA) (u2l : List (String × Nat))
       (fs : List (CellKey × List SFile)) (samples : Nat),
       DoneAWF don → DoneAWF doff →
       DaitaInv ⟨don, doff, setup_visit_list don doff samples, u2l, fs, samples⟩) ∧
    (∀ (st : DaitaSt) (r : PostReq), DaitaWF st → DaitaInv st →
       DaitaInv (daita_post_work st r).2) ∧
    (∀ (done : DoneD) (u2l : List (String × Nat))
       (fs : List (CellKey × List SFile)) (modes : List String) (samples : Nat),
       DoneDWF done → modes.Nodup →
       DeskInv ⟨done, init_visit_list done modes samples, u2l, fs, modes, samples⟩) ∧
    (∀ (st : DeskSt) (r : PostReq), DeskWF st → DeskInv st →
       DeskInv (desktop_post_work st r).2) :=
  ⟨fun don doff u2l fs samples hon hoff => daita_boot_inv don doff u2l fs samples hon hoff,
   fun st r hwf hinv => daita_post_inv st r hwf hinv,
   fun done u2l fs modes samples hwf hm => desktop_boot_inv done u2l fs modes samples hwf hm,
   fun st r hwf hinv => desktop_post_inv st r hwf hinv⟩

theorem pending_set_invariant_witness :
    (DoneAWF [("r1", [("u", 0)])] ∧ DoneAWF [("r1", [("u", 1)])] ∧
      DaitaInv ⟨[("r1", [("u", 0)])], [("r1", [("u", 1)])],
        setup_visit_list [("r1", [("u", 0)])] [("r1", [("u", 1)])] 1, [("u", 0)], [], 1⟩) ∧
    (DaitaWF ⟨[("r1", [("u", 0)])], [("r1", [("u", 0)])],
        [⟨"u", "r1", "on"⟩, ⟨"u", "r1", "off"⟩], [("u", 0)],
        [(("r1", 0, "on"), []), (("r1", 0, "off"), [])], 1⟩ ∧
      DaitaInv ⟨[("r1", [("u", 0)])], [("r1", [("u", 0)])],
        [⟨"u", "r1", "on"⟩, ⟨"u", "r1", "off"⟩], [("u", 0)],
        [(("r1", 0, "on"), []), (("r1", 0, "off"), [])], 1⟩ ∧
      DaitaInv (daita_post_work ⟨[("r1", [("u", 0)])], [("r1", [("u", 0)])],
        [⟨"u", "r1", "on"⟩, ⟨"u", "r1", "off"⟩], [("u", 0)],
        [(("r1", 0, "on"), []), (("r1", 0, "off"), [])], 1⟩
        ⟨"w", "u", "r1", "on", 30720, 30720⟩).2) ∧
    (DoneDWF [("r1", [("u", [("off", 0)])])] ∧ (["off"] : List String).Nodup ∧
      DeskInv ⟨[("r1", [("u", [("off", 0)])])],
        init_visit_list [("r1", [("u", [("off", 0)])])] ["off"] 1,
        [("u", 0)], [], ["off"], 1⟩) ∧
    (DeskWF ⟨[("r1", [("u", [("off", 0)])])], [⟨"u", "r1", "off"⟩], [("u", 0)],
        [(("r1", 0, "off"), [])], ["off"], 1⟩ ∧
      DeskInv ⟨[("r1", [("u", [("off", 0)])])], [⟨"u", "r1", "off"⟩], [("u", 0)],
        [(("r1", 0, "off"), [])], ["off"], 1⟩ ∧
      DeskInv (desktop_post_work ⟨[("r1", [("u", [("off", 0)])])], [⟨"u", "r1", "off"⟩],
        [("u", 0)], [(("r1", 0, "off"), [])], ["off"], 1⟩
        ⟨"w", "u", "r1", "off", 10240, 10240⟩).2) :=
  ⟨⟨by unfold DoneAWF; decide, by unfold DoneAWF; decide,
     pending_set_invariant.1 _ _ _ _ _ (by unfold DoneAWF; decide)
       (by unfold DoneAWF; decide)⟩,
   ⟨by unfold DaitaWF DoneAWF; decide, by unfold DaitaInv; decide,
     pending_set_invariant.2.1 _ _ (by unfold DaitaWF DoneAWF; decide)
       (by unfold DaitaInv; decide)⟩,
   ⟨by unfold DoneDWF; decide, by decide,
     pending_set_invariant.2.2.1 _ _ _ _ _ (by unfold DoneDWF; decide) (by decide)⟩,
   ⟨by unfold DeskWF DoneDWF; decide, by unfold DeskInv; decide,
     pending_set_invariant.2.2.2 _ _ (by unfold DeskWF DoneDWF; decide)
       (by unfold DeskInv; decide)⟩⟩

/-! ## C2: recovery agreement -/

theorem cellVal_eq_some_iff {dd : DoneD} {v : Visit} {c : Nat} :
    cellVal dd v = some c ↔
      ∃ um mm, alookup dd v.vpn = some um ∧ alookup um v.url = some mm ∧
        alookup mm v.daita = some c := by
  unfold cellVal
  constructor
  · intro h
    split at h
    · exact Option.noConfusion h
    next um hum =>
      split at h
      · exact Option.noConfusion h
      next mm hmm =>
        exact ⟨um, mm, hum, hmm, h⟩
  · rintro ⟨um, mm, hum, hmm, hc⟩
    simp only [hum, hmm]
    exact hc

theorem cellVal_scan_sub (l2u : List (Nat × String)) (modes : List String)
    (dd : DoneD) (vpn name : String) (files : List String) (v : Visit) (c : Nat)
    (h : cellVal dd v = some c) :
    cellVal (scan_sub l2u modes dd vpn name files) v =
      some (if vpn = v.vpn ∧ parseCell l2u modes name = some (v.url, v.daita)
        then countJson files else c) := by
  obtain ⟨um₀, mm₀, hv1, hv2, hv3⟩ := cellVal_eq_some_iff.mp h
  unfold scan_sub
  split
  next hp =>
    rw [hp, if_neg (fun hand => by simpa using hand.2)]
    exact h
  next url mode hp =>
    rw [hp]
    have hcond : (vpn = v.vpn ∧ (some (url, mode) : Option (String × String)) =
        some (v.url, v.daita)) ↔ (vpn = v.vpn ∧ url = v.url ∧ mode = v.daita) := by
      simp
    rw [if_congr hcond rfl rfl]
    split
    next heqv =>
      rw [if_neg (fun hand => by
        rw [hand.1, hv1] at heqv
        exact Option.noConfusion heqv)]
      exact h
    next um heqv =>
      split
      next hequ =>
        rw [if_neg (fun hand => by
          obtain ⟨h1, h2, h3⟩ := hand
          rw [h1, hv1] at heqv
          injection heqv with heqv
          rw [← heqv, h2, hv2] at hequ
          exact Option.noConfusion hequ)]
        exact h
      next mm hequ =>
        by_cases hvv : vpn = v.vpn
        · have hum : um = um₀ := by
            rw [hvv, hv1] at heqv
            injection heqv with he
            exact he.symm
          by_cases hu : url = v.url
          · have hmm : mm = mm₀ := by
              rw [hum, hu, hv2] at hequ
              injection hequ with he
              exact he.symm
            by_cases hm : mode = v.daita
            · rw [if_pos ⟨hvv, hu, hm⟩]
              apply cellVal_eq_some_iff.mpr
              refine ⟨aset um url (aset mm mode (countJson files)),
                aset mm mode (countJson files), ?_, ?_, ?_⟩
              · rw [← hvv]
                exact alookup_aset_self dd vpn _
              · rw [← hu]
                exact alookup_aset_self um url _
              · rw [← hm]
                exact alookup_aset_self mm mode _
            · rw [if_neg (fun hand => hm hand.2.2)]
              apply cellVal_eq_some_iff.mpr
              refine ⟨aset um url (aset mm mode (countJson files)),
                aset mm mode (countJson files), ?_, ?_, ?_⟩
              · rw [← hvv]
                exact alookup_aset_self dd vpn _
              · rw [← hu]
                exact alookup_aset_self um url _
              · rw [alookup_aset_ne _ _ _ _ (fun he => hm he.symm), hmm]
                exact hv3
          · rw [if_neg (fun hand => hu hand.2.1)]
            apply cellVal_eq_some_iff.mpr
            refine ⟨aset um url (aset mm mode (countJson files)), mm₀, ?_, ?_, hv3⟩
            · rw [← hvv]
              exact alookup_aset_self dd vpn _
            · rw [alookup_aset_ne _ _ _ _ (fun he => hu he.symm), hum]
              exact hv2
        · rw [if_neg (fun hand => hvv hand.1)]
          apply cellVal_eq_some_iff.mpr
          refine ⟨um₀, mm₀, ?_, hv2, hv3⟩
          rw [alookup_aset_ne _ _ _ _ (fun he => hvv he.symm)]
          exact hv1

theorem cellVal_scan_subs (l2u : List (Nat × String)) (modes : List String)
    (vpn : String) (v : Visit) (subs : List (String × List String)) :
    ∀ (dd : DoneD) (c : Nat), cellVal dd v = some c →
      cellVal (subs.foldl (fun dd2 s => scan_sub l2u modes dd2 vpn s.1 s.2) dd) v =
        some (lastD ((if vpn = v.vpn then subs.filterMap (fun s =>
            match parseCell l2u modes s.1 with
            | some (url, mode) =>
              if url = v.url ∧ mode = v.daita then some s.2 else none
            | none => none) else []).map countJson) c) := by
  induction subs with
  | nil =>
    intro dd c h
    by_cases hvv : vpn = v.vpn
    · rw [if_pos hvv]
      simpa [lastD] using h
    · rw [if_neg hvv]
      simpa [lastD] using h
  | cons s rest ih =>
    intro dd c h
    rw [List.foldl_cons]
    have hstep := cellVal_scan_sub l2u modes dd vpn s.1 s.2 v c h
    by_cases hvv : vpn = v.vpn
    · rw [if_pos hvv]
      cases hp : parseCell l2u modes s.1 with
      | none =>
        rw [hp, if_neg (fun hand => by simpa using hand.2)] at hstep
        have hrec := ih _ _ hstep
        rw [if_pos hvv] at hrec
        simp only [List.filterMap_cons, hp]
        exact hrec
      | some pr =>
        obtain ⟨url, mode⟩ := pr
        by_cases hmatch : url = v.url ∧ mode = v.daita
        · rw [hp, if_pos ⟨hvv, by rw [hmatch.1, hmatch.2]⟩] at hstep
          have hrec := ih _ _ hstep
          rw [if_pos hvv] at hrec
          simp only [List.filterMap_cons, hp]
          rw [if_pos hmatch, List.map_cons, lastD_cons]
          exact hrec
        · rw [hp, if_neg (fun hand => hmatch (by
              have hpe := hand.2
              injection hpe with hpe
              exact ⟨congrArg Prod.fst hpe, congrArg Prod.snd hpe⟩))] at hstep
          have hrec := ih _ _ hstep
          rw [if_pos hvv] at hrec
          simp only [List.filterMap_cons, hp]
          rw [if_neg hmatch]
          exact hrec
    · rw [if_neg (fun hand => hvv hand.1)] at hstep
      have hrec := ih _ _ hstep
      rw [if_neg hvv] at hrec
      rw [if_neg hvv]
      exact hrec

theorem cellVal_desktop_scan (l2u : List (Nat × String)) (modes : List String)
    (v : Visit) (tree : List (String × List (String × List String))) :
    ∀ (dd : DoneD) (c : Nat), cellVal dd v = some c →
      cellVal (desktop_scan l2u modes dd tree) v =
        some (lastD ((assigns l2u modes tree v).map countJson) c) := by
  induction tree with
  | nil =>
    intro dd c h
    simpa [desktop_scan, assigns, lastD] using h
  | cons e rest ih =>
    intro dd c h
    have h1 := cellVal_scan_subs l2u modes e.1 v e.2 dd c h
    rw [show desktop_scan l2u modes dd (e :: rest) =
        desktop_scan l2u modes
          (e.2.foldl (fun dd2 s => scan_sub l2u modes dd2 e.1 s.1 s.2) dd) rest
      from rfl]
    rw [ih _ _ h1]
    rw [show assigns l2u modes (e :: rest) v =
        (if e.1 = v.vpn then e.2.filterMap (fun s =>
            match parseCell l2u modes s.1 with
            | some (url, mode) =>
              if url = v.url ∧ mode = v.daita then some s.2 else none
            | none => none) else []) ++ assigns l2u modes rest v
      from by simp [assigns]]
    rw [List.map_append, lastD_append]

/-- C2 amended: what recovery actually reconstructs.  In the desktop variant
the recovered counter of a matrix cell equals the number of `*.json` entries
of the last scanned directory assigning to that cell (its initial value when
none does) — the `.json` file, not the `.pcap`, is the witness.  In the daita
variant the recovered counters are one third of the non-hidden file counts of
each cell directory, whose per-mode totals must be multiples of 3. -/
theorem recovery_counts_amended :
    (∀ (l2u : List (Nat × String)) (modes : List String) (dd : DoneD)
       (tree : List (String × List (String × List String))) (v : Visit) (c : Nat),
       cellVal dd v = some c →
       cellVal (desktop_scan l2u modes dd tree) v =
         some (lastD ((assigns l2u modes tree v).map countJson) c)) ∧
    (∀ (dirsOn dirsOff : List (List String)) (don doff : List Nat),
       daita_recover_vpn dirsOn dirsOff = some (don, doff) →
       (∀ i (hi : i < dirsOn.length),
         don[i]? = some ((nonhidden dirsOn[i]).length / 3)) ∧
       (∀ i (hi : i < dirsOff.length),
         doff[i]? = some ((nonhidden dirsOff[i]).length / 3))) := by
  constructor
  · intro l2u modes dd tree v c h
    exact cellVal_desktop_scan l2u modes v tree dd c h
  · intro dirsOn dirsOff don doff h
    simp only [daita_recover_vpn] at h
    split at h
    · exact Option.noConfusion h
    split at h
    · exact Option.noConfusion h
    split at h
    · exact Option.noConfusion h
    split at h
    · exact Option.noConfusion h
    injection h with h
    have hon : don = ((dirsOn.map nonhidden).map List.length).map (· / 3) :=
      (congrArg Prod.fst h).symm
    have hoff : doff = ((dirsOff.map nonhidden).map List.length).map (· / 3) :=
      (congrArg Prod.snd h).symm
    constructor
    · intro i hi
      rw [hon]
      simp [List.getElem?_map, List.getElem?_eq_getElem hi]
    · intro i hi
      rw [hoff]
      simp [List.getElem?_map, List.getElem?_eq_getElem hi]

theorem recovery_counts_amended_witness :
    cellVal [("r1", [("u", [("off", 0)])])] ⟨"u", "r1", "off"⟩ = some 0 ∧
    cellVal (desktop_scan [(0, "u")] ["off"] [("r1", [("u", [("off", 0)])])]
        [("r1", [("0_off", ["0.json", "0.pcap", "0.png"])])]) ⟨"u", "r1", "off"⟩ =
      some (lastD ((assigns [(0, "u")] ["off"]
        [("r1", [("0_off", ["0.json", "0.pcap", "0.png"])])] ⟨"u", "r1", "off"⟩).map
          countJson) 0) ∧
    daita_recover_vpn [["0.json", "0.pcap", "0.png"]] [] = some ([1], []) ∧
    ([1] : List Nat)[0]? = some ((nonhidden ["0.json", "0.pcap", "0.png"]).length / 3) :=
  ⟨by decide,
   recovery_counts_amended.1 [(0, "u")] ["off"] [("r1", [("u", [("off", 0)])])]
     [("r1", [("0_off", ["0.json", "0.pcap", "0.png"])])] ⟨"u", "r1", "off"⟩ 0 (by decide),
   by decide,
   (recovery_counts_amended.2 [["0.json", "0.pcap", "0.png"]] [] [1] []
     (by decide)).1 0 (by decide)⟩

/-- C2 counterexample: recovery does not count `.pcap` files.  A desktop cell
directory holding exactly one file `0.pcap` recovers counter 0 while the
directory holds 1 pcap; a daita cell directory holding `0.pcap`, `1.pcap`,
`2.pcap` passes the multiple-of-3 and png↔pcap checks and recovers counter 1
while the directory holds 3 pcaps. -/
theorem recovery_counts_cex :
    cellVal (desktop_scan [(0, "u")] ["off"] [("r1", [("u", [("off", 0)])])]
        [("r1", [("0_off", ["0.pcap"])])]) ⟨"u", "r1", "off"⟩ = some 0 ∧
    countPcap ["0.pcap"] = 1 ∧
    cellVal (desktop_scan [(0, "u")] ["off"] [("r1", [("u", [("off", 0)])])]
        [("r1", [("0_off", ["0.pcap"])])]) ⟨"u", "r1", "off"⟩ ≠
      some (countPcap ["0.pcap"]) ∧
    daita_recover_vpn [["0.pcap", "1.pcap", "2.pcap"]] [] = some ([1], []) ∧
    countPcap ["0.pcap", "1.pcap", "2.pcap"] = 3 ∧
    ([1] : List Nat)[0]? ≠ some (countPcap ["0.pcap", "1.pcap", "2.pcap"]) := by
  decide
